import Mathlib

/-!
Verification of the paint-by-numbers pipeline (worker.js).

The worker converts a raster image into a paint-by-numbers artifact:
pixel sampling, k-means color clustering, palette optimization,
threshold-seeded flood-fill region growing, small/thin region merging,
an optional 3x3 median filter, boundary-erosion label placement and
final rendering of a flat-colored raster.

This file gives a shallow embedding of those functions and proves (or
refutes) the frozen specification claims about them.  Conventions:

* a JS pixel `[r, g, b]` is a triple of naturals;
* JS numbers used as indices are modelled as naturals, or as integers
  where the source produces negative intermediate values (neighbor
  indices `p - 1`, `p - width`);
* `Math.sqrt` appears in the source only inside comparisons
  (`euclideanDistance(a,b) < t`, `> 1`, `< minDistance`), all of which
  are monotone in the squared distance, so distances are modelled by
  their squares (over integers, or rationals for averaged colors);
* `Array.prototype.sort` (required to be a stable comparison sort by the
  ECMAScript standard) is modelled by `List.insertionSort`, which is a
  stable sort;
* fallible steps (JS expressions that throw, such as reading a property
  of `undefined` or constructing a zero-area `ImageData`) are modelled in
  the `Except String` monad;
* unbounded `while` loops are given explicit fuel, with enough fuel
  supplied by the callers (proved where a claim needs it).
-/

namespace PBN

/-- An RGB pixel: the JS arrays `[r, g, b]` of 8-bit channel values. -/
abbrev RGB := ℕ × ℕ × ℕ

/-- Squared Euclidean distance in RGB space.  The source function
`euclideanDistance` returns `Math.sqrt` of this quantity; every use in
the source is a comparison, which is monotone in the square. -/
def euclideanDistSq (p q : RGB) : ℤ :=
  ((p.1 : ℤ) - q.1) ^ 2 + ((p.2.1 : ℤ) - q.2.1) ^ 2 + ((p.2.2 : ℤ) - q.2.2) ^ 2

/-- The test `euclideanDistance(p, q) < t` of the source for a rational
threshold `t`: `sqrt d < t` iff `0 < t` and `d < t^2`, written on the
threshold's numerator and denominator so that it evaluates inside the
kernel (`d < (num/den)^2` iff `d * den * den < num * num`; the
equivalence with the rational inequality is `distLtThreshold_iff`). -/
def distLtThreshold (p q : RGB) (t : ℚ) : Bool :=
  decide (0 < t.num ∧
    euclideanDistSq p q * ((t.den : ℤ) * t.den) < t.num * t.num)

lemma distLtThreshold_iff (p q : RGB) (t : ℚ) :
    distLtThreshold p q t = true ↔
      0 < t ∧ (euclideanDistSq p q : ℚ) < t * t := by
  unfold distLtThreshold
  rw [decide_eq_true_eq]
  have hden : (0 : ℚ) < (t.den : ℚ) := by
    exact_mod_cast t.den_pos
  constructor
  · rintro ⟨h1, h2⟩
    refine ⟨Rat.num_pos.1 h1, ?_⟩
    rw [show t = (t.num : ℚ) / (t.den : ℚ) from (Rat.num_div_den t).symm,
      div_mul_div_comm, lt_div_iff₀ (by positivity)]
    exact_mod_cast h2
  · rintro ⟨h1, h2⟩
    refine ⟨Rat.num_pos.2 h1, ?_⟩
    rw [show t = (t.num : ℚ) / (t.den : ℚ) from (Rat.num_div_den t).symm,
      div_mul_div_comm, lt_div_iff₀ (by positivity)] at h2
    exact_mod_cast h2

/-- The comparison `t < a / b` with JS division semantics, for natural
`a`, `b`: for `b > 0` it is `t.num * b < a * t.den`
(`jsLtDiv_iff`); for `b = 0` JS computes `a / 0 = Infinity` when
`a > 0` (so the comparison holds) and `NaN` when `a = 0` (so it does
not). -/
def jsLtDiv (t : ℚ) (a b : ℕ) : Bool :=
  if b = 0 then decide (0 < a)
  else decide (t.num * (b : ℤ) < (a : ℤ) * t.den)

lemma jsLtDiv_iff (t : ℚ) (a b : ℕ) (hb : 0 < b) :
    jsLtDiv t a b = true ↔ t < (a : ℚ) / (b : ℚ) := by
  unfold jsLtDiv
  rw [if_neg (by omega), decide_eq_true_eq]
  have hbq : (0 : ℚ) < (b : ℚ) := by exact_mod_cast hb
  have hden : (0 : ℚ) < (t.den : ℚ) := by exact_mod_cast t.den_pos
  constructor
  · intro h
    rw [lt_div_iff₀ hbq,
      show (t : ℚ) = (t.num : ℚ) / (t.den : ℚ) from (Rat.num_div_den t).symm,
      div_mul_eq_mul_div, div_lt_iff₀ hden]
    exact_mod_cast h
  · intro h
    rw [lt_div_iff₀ hbq,
      show (t : ℚ) = (t.num : ℚ) / (t.den : ℚ) from (Rat.num_div_den t).symm,
      div_mul_eq_mul_div, div_lt_iff₀ hden] at h
    exact_mod_cast h

/-- Perceptual luminance `0.2126*R + 0.7152*G + 0.0722*B`, scaled by
10000 to stay in the naturals; only comparisons between luminances occur
in the source, and they are invariant under the scaling. -/
def luminance (c : RGB) : ℕ :=
  2126 * c.1 + 7152 * c.2.1 + 722 * c.2.2

/-- JS `Math.round`: round half toward positive infinity. -/
def jsRound (q : ℚ) : ℤ := ⌊q + 1 / 2⌋

/-! ### 4.1 PixelSampler (`samplePixels`, worker.js lines 34-44) -/

/-- `samplePixels(pixels, sampleSize)`: if there are at most
`sampleSize` pixels return them all, otherwise walk the list with
stride `step = floor(length / sampleSize)` collecting
`pixels[0], pixels[step], pixels[2*step], ...`.
When `sampleSize = 0` (unreachable from the worker, which passes 30000)
JS computes `step = Infinity` and the loop body runs exactly once,
returning `[pixels[0]]`; that corner is the `step = 0` branch here. -/
def samplePixels {α : Type} (pixels : List α) (sampleSize : ℕ) : List α :=
  if pixels.length ≤ sampleSize then pixels
  else
    let step := pixels.length / sampleSize
    if step = 0 then pixels.take 1
    else ((List.range ((pixels.length + step - 1) / step)).map (· * step)).filterMap
      fun i => pixels[i]?

lemma filterMap_getElem_length {α : Type} (pixels : List α) (l : List ℕ)
    (h : ∀ j ∈ l, j < pixels.length) :
    (l.filterMap fun i => pixels[i]?).length = l.length := by
  induction l with
  | nil => rfl
  | cons a l ih =>
    have ha : a < pixels.length := h a (by simp)
    have : pixels[a]? = some pixels[a] := List.getElem?_eq_getElem ha
    simp [List.filterMap_cons, this, ih fun j hj => h j (by simp [hj])]

lemma filterMap_getElem_getElem? {α : Type} (pixels : List α) (l : List ℕ)
    (h : ∀ j ∈ l, j < pixels.length) (k : ℕ) (hk : k < l.length) :
    (l.filterMap fun i => pixels[i]?)[k]? = pixels[l[k]]? := by
  induction l generalizing k with
  | nil => simp at hk
  | cons a l ih =>
    have ha : a < pixels.length := h a (by simp)
    have ha' : pixels[a]? = some pixels[a] := List.getElem?_eq_getElem ha
    rcases k with _ | k
    · simp [List.filterMap_cons, ha']
    · have hk' : k < l.length := by simpa using hk
      simpa [List.filterMap_cons, ha'] using
        ih (fun j hj => h j (by simp [hj])) k hk'

lemma samplePixels_ne_nil {α : Type} (pixels : List α) (S : ℕ)
    (hne : pixels ≠ []) : samplePixels pixels S ≠ [] := by
  unfold samplePixels
  by_cases h1 : pixels.length ≤ S
  · rw [if_pos h1]
    exact hne
  · rw [if_neg h1]
    by_cases h2 : pixels.length / S = 0
    · rw [if_pos h2]
      cases pixels with
      | nil => exact absurd rfl hne
      | cons a l => simp
    · rw [if_neg h2]
      intro hcontra
      set step := pixels.length / S with hs
      have hlen : 1 ≤ pixels.length := by
        cases pixels with
        | nil => exact absurd rfl hne
        | cons a l => simp
      have hstep1 : 0 < step := Nat.pos_of_ne_zero (by rw [hs]; exact h2)
      have hcnt : 0 < (pixels.length + step - 1) / step :=
        Nat.div_pos (by omega) hstep1
      have h0 : (0 : ℕ) ∈
          (List.range ((pixels.length + step - 1) / step)).map (· * step) :=
        List.mem_map.2 ⟨0, List.mem_range.2 hcnt, by simp⟩
      rw [List.filterMap_eq_nil_iff] at hcontra
      have := hcontra 0 h0
      rw [List.getElem?_eq_none_iff] at this
      omega

/-- C4 counterexample input: 10 pixels, target sample 3.  The stride is
`floor(10/3) = 3`, visiting indices 0, 3, 6, 9, so 4 pixels come back,
not `min(10, 3) = 3`. -/
theorem samplePixels_length_ne_min :
    (samplePixels (List.range 10) 3).length ≠
      min (List.range 10).length 3 := by
  decide

/-- C4 (amended): for a target `S ≥ 1`, the sampler returns all pixels
unchanged when `N ≤ S`; otherwise with `step = floor(N/S)` it returns
exactly the pixels at indices `0, step, 2*step, ...` — their number is
`ceil(N/step) = (N + step - 1) / step`, which is at least `S` but in
general exceeds `S` (it is not `min N S`). -/
theorem samplePixels_spec {α : Type} (pixels : List α) (S : ℕ) (hS : 1 ≤ S) :
    (pixels.length ≤ S → samplePixels pixels S = pixels) ∧
    (S < pixels.length →
      (samplePixels pixels S).length =
          (pixels.length + pixels.length / S - 1) / (pixels.length / S) ∧
      S ≤ (samplePixels pixels S).length ∧
      ∀ j < (samplePixels pixels S).length,
        (samplePixels pixels S)[j]? = pixels[j * (pixels.length / S)]?) := by
  constructor
  · intro hle
    simp [samplePixels, hle]
  · intro hlt
    set N := pixels.length with hN
    have hstep : 1 ≤ N / S := (Nat.one_le_div_iff (by omega)).2 (by omega)
    set step := N / S with hstepdef
    have hsm : ¬ N ≤ S := by omega
    have hs0 : ¬ step = 0 := by omega
    have hidx : ∀ j ∈ (List.range ((N + step - 1) / step)).map (· * step),
        j < pixels.length := by
      intro j hj
      rcases List.mem_map.1 hj with ⟨i, hi, rfl⟩
      have hi' : i < (N + step - 1) / step := List.mem_range.1 hi
      have hcnt : (N + step - 1) / step = (N - 1) / step + 1 := by
        have : N + step - 1 = (N - 1) + 1 * step := by omega
        rw [this, Nat.add_mul_div_right _ _ (by omega)]
      have hi2 : i ≤ (N - 1) / step := by omega
      have : i * step ≤ ((N - 1) / step) * step :=
        Nat.mul_le_mul_right _ hi2
      have hle2 : ((N - 1) / step) * step ≤ N - 1 := Nat.div_mul_le_self _ _
      omega
    have hlen : (samplePixels pixels S).length = (N + step - 1) / step := by
      simp only [samplePixels, hsm, if_false, hs0, ← hN, ← hstepdef]
      exact (filterMap_getElem_length pixels _ hidx).trans (by simp)
    refine ⟨hlen, ?_, ?_⟩
    · rw [hlen]
      have h1 : step * S ≤ N := by
        have h := Nat.div_mul_le_self N S
        rw [hstepdef]
        exact h
      have h1' : S * step ≤ N := by rw [Nat.mul_comm]; exact h1
      rw [Nat.le_div_iff_mul_le (by omega : 0 < step)]
      omega
    · intro j hj
      rw [hlen] at hj
      simp only [samplePixels, hsm, if_false, hs0, ← hN, ← hstepdef]
      rw [filterMap_getElem_getElem? pixels _ hidx j (by simpa using hj)]
      congr 1
      rw [List.getElem_map, List.getElem_range]

/-- Witness for `samplePixels_spec` at a concrete input: 10 pixels,
sample size 3. -/
theorem samplePixels_spec_witness :
    ((List.range 10).length ≤ 3 → samplePixels (List.range 10) 3 = List.range 10) ∧
    (3 < (List.range 10).length →
      (samplePixels (List.range 10) 3).length =
          ((List.range 10).length + (List.range 10).length / 3 - 1) /
            ((List.range 10).length / 3) ∧
      3 ≤ (samplePixels (List.range 10) 3).length ∧
      ∀ j < (samplePixels (List.range 10) 3).length,
        (samplePixels (List.range 10) 3)[j]? =
          (List.range 10)[j * ((List.range 10).length / 3)]?) :=
  samplePixels_spec (List.range 10) 3 (by decide)

/-! ### 4.6 Smoother (`applyMedianFilter`, worker.js lines 196-232) -/

/-- A raster in the `ImageData` layout: a flat RGBA byte array of
length `4 * width * height`, `data (4*(y*width+x) + c)` being channel
`c` of pixel `(x, y)`.  The array is modelled as a total function; only
indices below `4 * width * height` are meaningful. -/
structure ImageData where
  width : ℕ
  height : ℕ
  data : ℕ → ℕ

/-- The nine channel-`ch` values of the 3x3 window centered at interior
pixel `(x, y)`, in the source's push order (`j` outer from -1 to 1, `i`
inner from -1 to 1; here both loop counters are shifted up by one so
they run over `0, 1, 2` with an explicit `- 1`). -/
def windowValues (img : ImageData) (x y ch : ℕ) : List ℕ :=
  (List.range 3).flatMap fun j => (List.range 3).map fun i =>
    img.data (4 * ((y + j - 1) * img.width + (x + i - 1)) + ch)

/-- `applyMedianFilter(imageData)`: border pixels are copied unchanged
(all four channels); for an interior pixel each of R, G, B becomes the
median (5th smallest of 9, index 4 after an ascending sort) of its 3x3
neighborhood and the alpha channel is set to 255.  The output
`ImageData` is written cell by cell, every cell exactly once; the
embedding gives each cell's value directly (cells outside the buffer
are 0, the `ImageData` fill value). -/
def applyMedianFilter (img : ImageData) : ImageData where
  width := img.width
  height := img.height
  data := fun idx =>
    if idx < 4 * (img.width * img.height) then
      let pix := idx / 4
      let ch := idx % 4
      let x := pix % img.width
      let y := pix / img.width
      if x = 0 ∨ x = img.width - 1 ∨ y = 0 ∨ y = img.height - 1 then
        img.data idx
      else if ch = 3 then 255
      else (List.insertionSort (· ≤ ·) (windowValues img x y ch)).getD 4 0
    else 0

/-- The 3x3 window centered at `(x, y)` is constant in channel `ch`. -/
def windowConstantAt (img : ImageData) (ch x y : ℕ) : Prop :=
  ∀ i < 3, ∀ j < 3,
    img.data (4 * ((y + j - 1) * img.width + (x + i - 1)) + ch) =
      img.data (4 * (y * img.width + x) + ch)

instance (img : ImageData) (ch x y : ℕ) :
    Decidable (windowConstantAt img ch x y) := by
  unfold windowConstantAt
  infer_instance

/-- All fully-contained 3x3 windows in pixel column `x` are constant in
channel `ch`. -/
def colConstantAt (img : ImageData) (ch x : ℕ) : Prop :=
  ∀ y < img.height, 0 < y → y + 1 < img.height → windowConstantAt img ch x y

instance (img : ImageData) (ch x : ℕ) : Decidable (colConstantAt img ch x) := by
  unfold colConstantAt
  infer_instance

/-- The raster is locally constant: every fully-contained 3x3 window is
constant in each of the three color channels (alpha unconstrained). -/
def locallyConstant3x3 (img : ImageData) : Prop :=
  ∀ ch < 3, ∀ x < img.width, 0 < x → x + 1 < img.width → colConstantAt img ch x

instance (img : ImageData) : Decidable (locallyConstant3x3 img) := by
  unfold locallyConstant3x3
  infer_instance

/-- C9 counterexample raster: 3x3, all R,G,B channels 5 (so every 3x3
window is constant per color channel), all alpha values 7. -/
def medianEx : ImageData :=
  ⟨3, 3, fun idx => if idx % 4 = 3 then 7 else 5⟩

/-- C9 counterexample: on `medianEx` (locally constant in every 3x3
window) the median filter is not the identity — the center pixel's
alpha (index 19) is forced to 255 while the input has 7 there. -/
theorem applyMedianFilter_not_identity :
    locallyConstant3x3 medianEx ∧
      (applyMedianFilter medianEx).data 19 ≠ medianEx.data 19 := by
  constructor
  · decide
  · decide

lemma insertionSort_getD_of_const (l : List ℕ) (v : ℕ) (hv : ∀ a ∈ l, a = v)
    (k : ℕ) (hk : k < l.length) :
    (List.insertionSort (· ≤ ·) l).getD k 0 = v := by
  have hperm := List.perm_insertionSort (fun a b : ℕ => a ≤ b) l
  have hk' : k < (List.insertionSort (· ≤ ·) l).length := by
    rw [hperm.length_eq]; exact hk
  rw [List.getD_eq_getElem (List.insertionSort (· ≤ ·) l) 0 hk']
  exact hv _ (hperm.mem_iff.1 (List.getElem_mem hk'))

/-- A pixel index denotes an interior pixel: its column is neither the
first nor the last and its row is neither the first nor the last (the
complement of the border test of worker.js line 203). -/
def isInteriorPixel (img : ImageData) (p : ℕ) : Prop :=
  ¬(p % img.width = 0 ∨ p % img.width = img.width - 1 ∨
    p / img.width = 0 ∨ p / img.width = img.height - 1)

instance (img : ImageData) (p : ℕ) : Decidable (isInteriorPixel img p) := by
  unfold isInteriorPixel
  infer_instance

/-- C9 (amended): on a raster whose every fully-contained 3x3 window is
constant per color channel, the median filter preserves every R, G, B
cell and copies border pixels verbatim in all four channels; the output
is identical to the input exactly when, additionally, every interior
pixel's alpha is already 255 — the filter unconditionally forces
interior alpha to 255 (worker.js line 227), so idempotence as literally
claimed fails on rasters with non-opaque interior alpha (see
`applyMedianFilter_not_identity`). -/
theorem applyMedianFilter_locallyConstant (img : ImageData)
    (h : locallyConstant3x3 img) :
    (applyMedianFilter img).width = img.width ∧
    (applyMedianFilter img).height = img.height ∧
    (∀ idx < 4 * (img.width * img.height), idx % 4 ≠ 3 →
        (applyMedianFilter img).data idx = img.data idx) ∧
    (∀ p < img.width * img.height, ¬isInteriorPixel img p → ∀ c < 4,
        (applyMedianFilter img).data (4 * p + c) = img.data (4 * p + c)) ∧
    ((∀ idx < 4 * (img.width * img.height),
        (applyMedianFilter img).data idx = img.data idx) ↔
      (∀ p < img.width * img.height, isInteriorPixel img p →
        img.data (4 * p + 3) = 255)) := by
  have key : ∀ idx < 4 * (img.width * img.height), idx % 4 ≠ 3 →
      (applyMedianFilter img).data idx = img.data idx := by
    intro idx hidx hch
    have hW : 0 < img.width := by
      rcases Nat.eq_zero_or_pos img.width with h0 | h1
      · rw [h0] at hidx; simp at hidx
      · exact h1
    have hH : 0 < img.height := by
      rcases Nat.eq_zero_or_pos img.height with h0 | h1
      · rw [h0] at hidx; simp at hidx
      · exact h1
    show (if idx < 4 * (img.width * img.height) then _ else 0) = img.data idx
    rw [if_pos hidx]
    set pix := idx / 4 with hpix
    set x := pix % img.width with hx
    set y := pix / img.width with hy
    by_cases hb : x = 0 ∨ x = img.width - 1 ∨ y = 0 ∨ y = img.height - 1
    · simp only [hb, if_true]
    · push_neg at hb
      obtain ⟨hx0, hxW, hy0, hyH⟩ := hb
      have hxlt : x < img.width := Nat.mod_lt _ hW
      have hpixlt : pix < img.width * img.height := by
        rw [hpix, Nat.div_lt_iff_lt_mul (by norm_num : (0:ℕ) < 4)]
        omega
      have hylt : y < img.height := by
        rw [hy]
        exact Nat.div_lt_of_lt_mul (by rw [Nat.mul_comm] at hpixlt ⊢; exact hpixlt)
      have hx1 : 0 < x := Nat.pos_of_ne_zero hx0
      have hy1 : 0 < y := Nat.pos_of_ne_zero hy0
      have hxW1 : x + 1 < img.width := by omega
      have hyH1 : y + 1 < img.height := by omega
      simp only [if_neg (by tauto : ¬(x = 0 ∨ x = img.width - 1 ∨ y = 0 ∨
        y = img.height - 1))]
      rw [if_neg hch]
      have hpix4 : 4 * pix + idx % 4 = idx := by
        have hdm := Nat.div_add_mod idx 4
        omega
      have hyx : y * img.width + x = pix := by
        have h1 : img.width * (pix / img.width) + pix % img.width = pix :=
          Nat.div_add_mod pix img.width
        rw [hy, hx, Nat.mul_comm]
        exact h1
      have hcenter : 4 * (y * img.width + x) + idx % 4 = idx := by
        rw [hyx]; exact hpix4
      have hspec := h (idx % 4) (by omega) x hxlt hx1 hxW1 y hylt hy1 hyH1
      unfold windowConstantAt at hspec
      have hall : ∀ a ∈ windowValues img x y (idx % 4), a = img.data idx := by
        intro a ha
        simp only [windowValues, List.mem_flatMap, List.mem_map,
          List.mem_range] at ha
        obtain ⟨j, hj, i, hi, rfl⟩ := ha
        have hsij := hspec i hi j hj
        rw [hcenter] at hsij
        exact hsij
      have hlen : (windowValues img x y (idx % 4)).length = 9 := by
        simp [windowValues, Function.comp, List.range_succ]
      exact insertionSort_getD_of_const _ _ hall 4 (by omega)
  have border : ∀ p < img.width * img.height, ¬isInteriorPixel img p → ∀ c < 4,
      (applyMedianFilter img).data (4 * p + c) = img.data (4 * p + c) := by
    intro p hp hbord c hc
    unfold isInteriorPixel at hbord
    rw [not_not] at hbord
    have hlt : 4 * p + c < 4 * (img.width * img.height) := by omega
    show (if 4 * p + c < 4 * (img.width * img.height) then _ else 0) =
      img.data (4 * p + c)
    rw [if_pos hlt]
    have h4 : (4 * p + c) / 4 = p := by omega
    have hm : (4 * p + c) % 4 = c := by omega
    simp only [h4, hm]
    rw [if_pos hbord]
  have alpha255 : ∀ p < img.width * img.height, isInteriorPixel img p →
      (applyMedianFilter img).data (4 * p + 3) = 255 := by
    intro p hp hint
    unfold isInteriorPixel at hint
    have hlt : 4 * p + 3 < 4 * (img.width * img.height) := by omega
    show (if 4 * p + 3 < 4 * (img.width * img.height) then _ else 0) = 255
    rw [if_pos hlt]
    have h4 : (4 * p + 3) / 4 = p := by omega
    have hm : (4 * p + 3) % 4 = 3 := by omega
    simp only [h4, hm]
    rw [if_neg hint]
    simp
  refine ⟨rfl, rfl, key, border, ?_, ?_⟩
  · intro hid p hp hint
    rw [← hid (4 * p + 3) (by omega)]
    exact alpha255 p hp hint
  · intro halpha idx hidx
    by_cases hch : idx % 4 = 3
    · set p := idx / 4 with hpdef
      have hp : p < img.width * img.height := by omega
      have hidx4 : idx = 4 * p + 3 := by omega
      by_cases hint : isInteriorPixel img p
      · rw [hidx4, alpha255 p hp hint, halpha p hp hint]
      · rw [hidx4]
        exact border p hp hint 3 (by omega)
    · exact key idx hidx hch

/-- C9 witness raster: locally constant 3x3 raster with constant R,G,B
channels 5, border alpha 7 and interior alpha 255 (buffer index 19). -/
def medianOpaqueEx : ImageData :=
  ⟨3, 3, fun i => if i % 4 = 3 then (if i = 19 then 255 else 7) else 5⟩

/-- Witness for `applyMedianFilter_locallyConstant` at `medianOpaqueEx`:
the interior-alpha condition of the amended claim holds although the
border alphas are not 255, so the iff makes the filter the identity on
the whole buffer there. -/
theorem applyMedianFilter_locallyConstant_witness :
    (applyMedianFilter medianOpaqueEx).width = medianOpaqueEx.width ∧
    (applyMedianFilter medianOpaqueEx).height = medianOpaqueEx.height ∧
    (∀ idx < 4 * (medianOpaqueEx.width * medianOpaqueEx.height),
        idx % 4 ≠ 3 →
        (applyMedianFilter medianOpaqueEx).data idx =
          medianOpaqueEx.data idx) ∧
    (∀ p < medianOpaqueEx.width * medianOpaqueEx.height,
        ¬isInteriorPixel medianOpaqueEx p → ∀ c < 4,
        (applyMedianFilter medianOpaqueEx).data (4 * p + c) =
          medianOpaqueEx.data (4 * p + c)) ∧
    ((∀ idx < 4 * (medianOpaqueEx.width * medianOpaqueEx.height),
        (applyMedianFilter medianOpaqueEx).data idx =
          medianOpaqueEx.data idx) ↔
      (∀ p < medianOpaqueEx.width * medianOpaqueEx.height,
        isInteriorPixel medianOpaqueEx p →
        medianOpaqueEx.data (4 * p + 3) = 255)) :=
  applyMedianFilter_locallyConstant medianOpaqueEx (by decide)

/-! ### Regions (`generatePbnImage`, worker.js lines 277-454)

A region as built by the flood-fill pass: positive id, owned pixel
indices (grid index `y*width + x`), running RGB sums, a bounding box,
and (after step 2 of `generatePbnImage`) an assigned palette color.
The JS region objects hold the palette color by reference into the
`colors` array; since the palette entries are distinct array objects,
reference equality of assigned colors is equality of palette indices,
so `color` is modelled as the index of the assigned palette entry. -/

structure Region where
  id : ℕ
  pixels : List ℕ
  sumR : ℕ
  sumG : ℕ
  sumB : ℕ
  minX : ℤ
  minY : ℤ
  maxX : ℤ
  maxY : ℤ
  color : ℕ
deriving Repr, DecidableEq

/-- Bounding-box width `region.maxX - region.minX + 1` (line 343). -/
def regionWidth (r : Region) : ℤ := r.maxX - r.minX + 1

/-- Bounding-box height `region.maxY - region.minY + 1` (line 344). -/
def regionHeight (r : Region) : ℤ := r.maxY - r.minY + 1

/-! ### 4.5 RegionMerger candidate test (worker.js lines 343-348) -/

/-- `isSmall`: the region has fewer than `minRegionSize` pixels. -/
def isSmall (r : Region) (minRegionSize : ℕ) : Bool :=
  decide (r.pixels.length < minRegionSize)

/-- `isThin` exactly as the source computes it (line 346): the guard is
on the region's bounding-box dimensions, but the aspect quotient
`Math.max(width, height) / Math.min(width, height) > thinnessThreshold`
is over the IMAGE dimensions, not the region's. -/
def isThin (r : Region) (width height : ℕ) (thinnessThreshold : ℚ) : Bool :=
  decide (0 < min (regionWidth r) (regionHeight r)) &&
    jsLtDiv thinnessThreshold (max width height) (min width height)

/-- The thinness test as the specification words it: the aspect quotient
of the region's own bounding box,
`max(regionWidth, regionHeight) / min(regionWidth, regionHeight)`,
compared (denominators cleared, the guard makes the divisor positive)
against the threshold. -/
def isThinSpec (r : Region) (thinnessThreshold : ℚ) : Bool :=
  decide (0 < min (regionWidth r) (regionHeight r)) &&
    decide (thinnessThreshold.num * min (regionWidth r) (regionHeight r) <
      max (regionWidth r) (regionHeight r) * thinnessThreshold.den)

/-- `if (!isSmall && !isThin) continue;` — a region is a merge candidate
iff it is small or thin (lines 345-348). -/
def isMergeCandidate (r : Region) (width height minRegionSize : ℕ)
    (thinnessThreshold : ℚ) : Bool :=
  isSmall r minRegionSize || isThin r width height thinnessThreshold

/-- C2: a perfectly square, large-enough region (bounding box 5x5,
25 pixels, `minRegionSize = 20`) inside a 100x10 image with
`thinnessThreshold = 3`: the code flags it as a merge candidate because
the IMAGE aspect 100/10 = 10 exceeds 3, while the claimed test (the
region's own bounding-box aspect 5/5 = 1) does not flag it. -/
theorem isMergeCandidate_uses_image_dims :
    isMergeCandidate ⟨1, List.range 25, 0, 0, 0, 0, 0, 4, 4, 0⟩ 100 10 20 3
        = true ∧
    isSmall ⟨1, List.range 25, 0, 0, 0, 0, 0, 4, 4, 0⟩ 20 = false ∧
    isThinSpec ⟨1, List.range 25, 0, 0, 0, 0, 0, 4, 4, 0⟩ 3 = false := by
  refine ⟨?_, ?_, ?_⟩ <;> decide

/-- The faithfulness bridge for the counterexample's thinness values:
on a 100x10 image the source's quotient test is the rational comparison
`3 < 100/10`, which holds, while the region's own 5x5 box gives
`3 < 5/5`, which fails. -/
theorem thinness_bridge :
    (jsLtDiv 3 (max 100 10) (min 100 10) = true ↔
        (3 : ℚ) < ((max 100 10 : ℕ) : ℚ) / ((min 100 10 : ℕ) : ℚ)) ∧
      ((3 : ℚ) < ((max 100 10 : ℕ) : ℚ) / ((min 100 10 : ℕ) : ℚ)) ∧
      ¬ ((3 : ℚ) < (5 : ℚ) / (5 : ℚ)) := by
  refine ⟨jsLtDiv_iff 3 (max 100 10) (min 100 10) (by norm_num), ?_, ?_⟩ <;>
    norm_num

/-! ### 4.3 PaletteOptimizer (`generateOptimalPalette`,
worker.js lines 128-181) -/

/-- The luminance-comparator sort `arr.sort((a, b) => aLum - bLum)`
(lines 130-134 and 176-180); JS `Array.prototype.sort` is a stable
comparison sort. -/
def sortByLuminance (l : List RGB) : List RGB :=
  List.insertionSort (fun a b => luminance a ≤ luminance b) l

instance : IsTotal RGB (fun a b => luminance a ≤ luminance b) :=
  ⟨fun a b => le_total (luminance a) (luminance b)⟩

instance : IsTrans RGB (fun a b => luminance a ≤ luminance b) :=
  ⟨fun _ _ _ hab hbc => le_trans hab hbc⟩

/-- `weightedCentroids` (lines 137-140): pair each centroid with its
cluster's size (`clusters[i] ? clusters[i].length : 0`) and drop the
zero-weight ones. -/
def weightedCentroids (centroids : List RGB) (clusters : List (List RGB)) :
    List (RGB × ℕ) :=
  (centroids.enum.map fun p => (p.2, (clusters[p.1]?.getD []).length)).filter
    fun c => 0 < c.2

instance : IsTotal (RGB × ℕ) (fun a b : RGB × ℕ => b.2 ≤ a.2) :=
  ⟨fun a b => le_total b.2 a.2⟩

instance : IsTrans (RGB × ℕ) (fun a b : RGB × ℕ => b.2 ≤ a.2) :=
  ⟨fun _ _ _ hab hbc => le_trans hbc hab⟩

/-- `minDistanceToPalette` (lines 155-158): minimum squared distance of
a candidate to the palette built so far; `none` models the JS starting
value `Infinity` (empty palette). -/
def minDistToPalette (c : RGB) (palette : List RGB) : Option ℤ :=
  palette.foldl
    (fun acc q =>
      match acc with
      | none => some (euclideanDistSq c q)
      | some m => some (min m (euclideanDistSq c q)))
    none

/-- Extended-value strict comparison for the max-min selection;
`none` is `Infinity` (`Infinity > Infinity` is false in JS). -/
def extGt : Option ℤ → Option ℤ → Bool
  | none, none => false
  | none, some _ => true
  | some _, none => false
  | some x, some y => decide (y < x)

/-- One candidate of the `bestCandidate` scan (lines 154-163): keep the
running `(bestCandidate, maxMinDistance)` state unless this candidate's
min distance to the palette strictly exceeds the running maximum. -/
def selectStep (palette : List RGB) (st : Option RGB × Option ℤ) (c : RGB) :
    Option RGB × Option ℤ :=
  if extGt (minDistToPalette c palette) st.2
  then (some c, minDistToPalette c palette) else st

/-- The scan for `bestCandidate` (lines 152-163): first candidate whose
min distance to the palette strictly exceeds the running maximum,
which starts at -1 (`maxMinDistance = -1`, `bestCandidate = null`). -/
def selectBest (candidates palette : List RGB) : Option RGB :=
  (candidates.foldl (selectStep palette)
    ((none : Option RGB), (some (-1) : Option ℤ))).1

/-- The greedy max-min loop (lines 151-174).  Each iteration picks
`bestCandidate`, appends it and removes it from the candidates (the JS
removal compares by object identity `c === bestCandidate`; candidate
objects with equal channel values are interchangeable for every
property proved here, so removal is by first value match).  The fuel is
the candidate count, consumed one per iteration. -/
def buildPalette : ℕ → List RGB → List RGB → ℤ → List RGB
  | 0, palette, _, _ => palette
  | fuel + 1, palette, candidates, k =>
    if (palette.length : ℤ) < k ∧ candidates ≠ [] then
      match selectBest candidates palette with
      | some best =>
          buildPalette fuel (palette ++ [best])
            (candidates.eraseIdx (candidates.findIdx (· == best))) k
      | none => palette
    else palette

/-- `candidates` (lines 142-145): the positive-weight centroids sorted
descending by cluster size (`(a, b) => b.size - a.size`, a stable
sort), colors only. -/
def paletteCandidates (centroids : List RGB) (clusters : List (List RGB)) :
    List RGB :=
  (List.insertionSort (fun a b : RGB × ℕ => b.2 ≤ a.2)
    (weightedCentroids centroids clusters)).map (·.1)

/-- `generateOptimalPalette(centroids, clusters, k)` (lines 128-181):
if at most `k` centroids, all of them sorted by luminance; otherwise
the palette is seeded with the heaviest candidate, grown by the greedy
max-min loop, and sorted by luminance. -/
def generateOptimalPalette (centroids : List RGB) (clusters : List (List RGB))
    (k : ℤ) : List RGB :=
  if (centroids.length : ℤ) ≤ k then sortByLuminance centroids
  else
    sortByLuminance
      (match paletteCandidates centroids clusters with
      | [] => []
      | c :: rest => buildPalette rest.length [c] rest k)

/-- C3 counterexample: four candidate centroids all of the same color,
each with a nonempty cluster, and `k = 3`.  The greedy loop happily
picks value-duplicate candidates, returning 3 colors, not
`min(k, 1)` = 1 distinct-candidate-count colors. -/
theorem generateOptimalPalette_not_distinct :
    (generateOptimalPalette [(0, 0, 0), (0, 0, 0), (0, 0, 0), (0, 0, 0)]
        [[(0, 0, 0)], [(0, 0, 0)], [(0, 0, 0)], [(0, 0, 0)]] 3).length ≠
      min 3 ([(0, 0, 0), (0, 0, 0), (0, 0, 0), (0, 0, 0)] : List RGB).dedup.length := by
  decide

lemma euclideanDistSq_nonneg (p q : RGB) : 0 ≤ euclideanDistSq p q := by
  unfold euclideanDistSq
  positivity

lemma minDistToPalette_nonneg (c : RGB) (palette : List RGB) :
    ∀ v, minDistToPalette c palette = some v → 0 ≤ v := by
  unfold minDistToPalette
  suffices h : ∀ (acc : Option ℤ), (∀ w, acc = some w → 0 ≤ w) →
      ∀ v, palette.foldl (fun acc q =>
        match acc with
        | none => some (euclideanDistSq c q)
        | some m => some (min m (euclideanDistSq c q))) acc = some v → 0 ≤ v by
    exact h none (by intro w hw; cases hw)
  induction palette with
  | nil => intro acc hacc v hv; exact hacc v hv
  | cons q rest ih =>
    intro acc hacc v hv
    refine ih _ ?_ v hv
    intro w hw
    cases acc with
    | none =>
      simp only at hw
      cases hw
      exact euclideanDistSq_nonneg c q
    | some m =>
      simp only at hw
      cases hw
      exact le_min (hacc m rfl) (euclideanDistSq_nonneg c q)

lemma selectBest_stays_some (palette : List RGB) (candidates : List RGB) :
    ∀ (st : Option RGB × Option ℤ) (x : RGB), st.1 = some x →
      ∃ y, (candidates.foldl (selectStep palette) st).1 = some y ∧
        (y = x ∨ y ∈ candidates) := by
  induction candidates with
  | nil => intro st x hst; exact ⟨x, hst, Or.inl rfl⟩
  | cons c rest ih =>
    intro st x hst
    rw [List.foldl_cons]
    by_cases hgt : extGt (minDistToPalette c palette) st.2
    · have hstep : selectStep palette st c =
          (some c, minDistToPalette c palette) := by
        unfold selectStep; rw [if_pos hgt]
      rw [hstep]
      obtain ⟨y, hy, hmem⟩ := ih (some c, minDistToPalette c palette) c rfl
      refine ⟨y, hy, ?_⟩
      rcases hmem with rfl | hmem
      · exact Or.inr (by simp)
      · exact Or.inr (by simp [hmem])
    · have hstep : selectStep palette st c = st := by
        unfold selectStep; rw [if_neg hgt]
      rw [hstep]
      obtain ⟨y, hy, hmem⟩ := ih st x hst
      refine ⟨y, hy, ?_⟩
      rcases hmem with rfl | hmem
      · exact Or.inl rfl
      · exact Or.inr (by simp [hmem])

lemma selectBest_mem (candidates palette : List RGB) (hne : candidates ≠ []) :
    ∃ b ∈ candidates, selectBest candidates palette = some b := by
  cases candidates with
  | nil => exact absurd rfl hne
  | cons c rest =>
    unfold selectBest
    rw [List.foldl_cons]
    have hfirst : extGt (minDistToPalette c palette) (some (-1)) = true := by
      cases hd : minDistToPalette c palette with
      | none => rfl
      | some v =>
        have := minDistToPalette_nonneg c palette v hd
        simp only [extGt, decide_eq_true_eq]
        omega
    have hstep : selectStep palette (none, some (-1)) c =
        (some c, minDistToPalette c palette) := by
      unfold selectStep; rw [if_pos (by rw [hfirst])]
    rw [hstep]
    obtain ⟨y, hy, hmem⟩ :=
      selectBest_stays_some palette rest
        (some c, minDistToPalette c palette) c rfl
    refine ⟨y, ?_, hy⟩
    rcases hmem with rfl | hmem
    · simp
    · simp [hmem]

lemma buildPalette_length (fuel : ℕ) :
    ∀ (palette candidates : List RGB) (k : ℤ),
      candidates.length ≤ fuel → (palette.length : ℤ) ≤ k →
      ((buildPalette fuel palette candidates k).length : ℤ) =
        min k ((palette.length : ℤ) + candidates.length) := by
  induction fuel with
  | zero =>
    intro palette candidates k hfuel hlen
    have : candidates = [] := List.length_eq_zero.1 (by omega)
    subst this
    simp only [buildPalette, List.length_nil]
    omega
  | succ fuel ih =>
    intro palette candidates k hfuel hlen
    rw [buildPalette]
    by_cases hcond : (palette.length : ℤ) < k ∧ candidates ≠ []
    · rw [if_pos hcond]
      obtain ⟨b, hbmem, hbsel⟩ := selectBest_mem candidates palette hcond.2
      rw [hbsel]
      have hfind : candidates.findIdx (· == b) < candidates.length :=
        List.findIdx_lt_length_of_exists ⟨b, hbmem, by simp⟩
      have herase : (candidates.eraseIdx (candidates.findIdx (· == b))).length
          = candidates.length - 1 := by
        rw [List.length_eraseIdx]
        simp [hfind]
      have h1 : 1 ≤ candidates.length := by
        cases candidates with
        | nil => exact absurd rfl hcond.2
        | cons _ _ => simp
      rw [ih (palette ++ [b]) _ k (by rw [herase]; omega)
        (by simp only [List.length_append, List.length_cons, List.length_nil]
            push_cast; omega)]
      congr 1
      simp only [List.length_append, List.length_cons, List.length_nil, herase]
      omega
    · rw [if_neg hcond]
      push_neg at hcond
      by_cases hk : (palette.length : ℤ) < k
      · have hcand : candidates = [] := hcond hk
        subst hcand
        simp only [List.length_nil]
        omega
      · omega

/-- C3 (amended): for `k ≥ 1` the optimizer returns all centroids
(sorted by non-decreasing luminance) when there are at most `k` of
them, and otherwise exactly `min(k, number of positive-weight
candidates)` colors — candidates counted with multiplicity, NOT the
number of distinct candidate colors (the greedy max-min loop never
deduplicates value-equal candidates).  The output is always sorted by
non-decreasing luminance. -/
theorem generateOptimalPalette_spec (centroids : List RGB)
    (clusters : List (List RGB)) (k : ℤ) (hk : 1 ≤ k) :
    ((centroids.length : ℤ) ≤ k →
      (generateOptimalPalette centroids clusters k).Perm centroids) ∧
    (k < (centroids.length : ℤ) →
      ((generateOptimalPalette centroids clusters k).length : ℤ) =
        min k ((weightedCentroids centroids clusters).length : ℤ)) ∧
    List.Sorted (fun a b => luminance a ≤ luminance b)
      (generateOptimalPalette centroids clusters k) := by
  refine ⟨?_, ?_, ?_⟩
  · intro hle
    unfold generateOptimalPalette
    rw [if_pos hle]
    unfold sortByLuminance
    exact List.perm_insertionSort _ centroids
  · intro hgt
    unfold generateOptimalPalette
    rw [if_neg (by omega)]
    have hsortlen : (paletteCandidates centroids clusters).length =
        (weightedCentroids centroids clusters).length := by
      unfold paletteCandidates
      rw [List.length_map,
        (List.perm_insertionSort (fun a b : RGB × ℕ => b.2 ≤ a.2) _).length_eq]
    cases hc : paletteCandidates centroids clusters with
    | nil =>
      have h0 : (weightedCentroids centroids clusters).length = 0 := by
        rw [← hsortlen, hc]
        rfl
      rw [h0]
      show ((([] : List RGB).length : ℕ) : ℤ) = min k ((0 : ℕ) : ℤ)
      simp only [List.length_nil, Nat.cast_zero]
      omega
    | cons c rest =>
      have hw : (weightedCentroids centroids clusters).length =
          rest.length + 1 := by
        rw [← hsortlen, hc]
        simp
      rw [hw]
      have hsd : (sortByLuminance (buildPalette rest.length [c] rest k)).length
          = (buildPalette rest.length [c] rest k).length := by
        unfold sortByLuminance
        exact (List.perm_insertionSort _ _).length_eq
      rw [hsd]
      have hb := buildPalette_length rest.length [c] rest k (le_refl _)
        (by simp only [List.length_cons, List.length_nil]; push_cast; omega)
      rw [hb]
      simp only [List.length_cons, List.length_nil]
      push_cast
      omega
  · unfold generateOptimalPalette
    by_cases hle : (centroids.length : ℤ) ≤ k
    · rw [if_pos hle]
      unfold sortByLuminance
      exact List.sorted_insertionSort _ centroids
    · rw [if_neg hle]
      unfold sortByLuminance
      exact List.sorted_insertionSort _ _

/-- Witness for `generateOptimalPalette_spec` at a concrete input:
two distinct centroids with nonempty clusters and `k = 1`. -/
theorem generateOptimalPalette_spec_witness :
    ((([(0, 0, 0), (255, 255, 255)] : List RGB).length : ℤ) ≤ 1 →
      (generateOptimalPalette [(0, 0, 0), (255, 255, 255)]
        [[(0, 0, 0)], [(255, 255, 255)]] 1).Perm [(0, 0, 0), (255, 255, 255)]) ∧
    ((1 : ℤ) < (([(0, 0, 0), (255, 255, 255)] : List RGB).length : ℤ) →
      ((generateOptimalPalette [(0, 0, 0), (255, 255, 255)]
          [[(0, 0, 0)], [(255, 255, 255)]] 1).length : ℤ) =
        min 1 ((weightedCentroids [(0, 0, 0), (255, 255, 255)]
          [[(0, 0, 0)], [(255, 255, 255)]]).length : ℤ)) ∧
    List.Sorted (fun a b => luminance a ≤ luminance b)
      (generateOptimalPalette [(0, 0, 0), (255, 255, 255)]
        [[(0, 0, 0)], [(255, 255, 255)]] 1) :=
  generateOptimalPalette_spec [(0, 0, 0), (255, 255, 255)]
    [[(0, 0, 0)], [(255, 255, 255)]] 1 (by decide)

/-! ### 4.2 ColorClusterer (`kmeans`, worker.js lines 66-126)

Randomness (`Math.random()`) is modelled by an oracle `rand : ℕ → ℕ`;
draw number `t` yields index `rand t % pixels.length`
(every JS draw `Math.floor(Math.random() * pixels.length)` lands in
`[0, pixels.length)`, and any such sequence is realizable).  The
initialization `while` loop retries until it has `min(k, sample size)`
distinct indices, so it needs fuel; theorems pick oracles under which
the supplied fuel suffices.  JS expressions that throw
(`euclideanDistance(pixel, undefined)` via `centroids[i]` with
`i >= centroids.length`, and `clusters[idx].push` with `idx` out of
range) are `Except.error` with the browser's TypeError message. -/

/-- The JS TypeError message thrown when reading a property of
`undefined` (array access past the end). -/
def undefinedReadMsg : String := "TypeError: Cannot read properties of undefined"

/-- Initial centroid selection (lines 67-75): draw random indices,
skipping duplicates, until `min(k, pixels.length)` pixels are chosen.
Returns the centroids and the next unused oracle position. -/
def kmeansInit (pixels : List RGB) (k : ℤ) (rand : ℕ → ℕ) :
    ℕ → List RGB → List ℕ → ℕ → List RGB × ℕ
  | 0, centroids, _, t => (centroids, t)
  | fuel + 1, centroids, used, t =>
    if (centroids.length : ℤ) < k ∧ centroids.length < pixels.length then
      let index := rand t % pixels.length
      if index ∈ used then kmeansInit pixels k rand fuel centroids used (t + 1)
      else
        kmeansInit pixels k rand fuel
          (centroids ++ [pixels.getD index (0, 0, 0)]) (index :: used) (t + 1)
    else (centroids, t)

/-- The nearest-centroid scan for one pixel (lines 85-93):
`minDistance` starts at `Infinity` (modelled `none`),
`closestCentroidIndex` at 0; the loop runs `i` from 0 to `k - 1`
regardless of how many centroids exist, and JS throws a TypeError the
moment it evaluates `euclideanDistance(pixel, centroids[i])` for a
missing `centroids[i]`. -/
def closestCentroid (centroids : List RGB) (k : ℕ) (pixel : RGB) :
    Except String ℕ :=
  ((List.range k).foldlM
    (fun (st : ℕ × Option ℤ) i =>
      match centroids[i]? with
      | none => Except.error undefinedReadMsg
      | some c =>
        let d := euclideanDistSq pixel c
        match st.2 with
        | none => Except.ok (i, some d)
        | some m =>
          if d < m then Except.ok (i, some d) else Except.ok st)
    ((0 : ℕ), (none : Option ℤ))).map (fun p : ℕ × Option ℤ => p.1)

/-- The cluster assignment pass (lines 83-95): start from `k` empty
clusters and push each pixel into its closest centroid's cluster
(`clusters[idx].push` throws when `idx` is out of range, which happens
when `k = 0`). -/
def assignPixels (pixels centroids : List RGB) (k : ℕ) :
    Except String (List (List RGB)) :=
  pixels.foldlM
    (fun clusters pixel => do
      let ci ← closestCentroid centroids k pixel
      match clusters[ci]? with
      | none => Except.error undefinedReadMsg
      | some cl => Except.ok (clusters.set ci (cl ++ [pixel])))
    (List.replicate k [])

/-- JS `Math.round(sum / len)` on naturals:
`floor(sum/len + 1/2) = (2*sum + len) / (2*len)`. -/
def roundDiv (sum len : ℕ) : ℕ := (2 * sum + len) / (2 * len)

/-- The component-wise rounded mean of a cluster (lines 100-102). -/
def clusterMean (cl : List RGB) : RGB :=
  (roundDiv (cl.foldl (fun acc p => acc + p.1) 0) cl.length,
   roundDiv (cl.foldl (fun acc p => acc + p.2.1) 0) cl.length,
   roundDiv (cl.foldl (fun acc p => acc + p.2.2) 0) cl.length)

/-- The centroid update (lines 97-107): mean of each nonempty cluster,
random reseed (one oracle draw) for each empty one.  When `pixels` is
empty the JS reseed `pixels[...]` yields `undefined`, which is never
dereferenced downstream on that path; it is modelled by the default
pixel (0,0,0). -/
def newCentroidsOf (pixels : List RGB) (clusters : List (List RGB)) (k : ℕ)
    (rand : ℕ → ℕ) (t : ℕ) : List RGB × ℕ :=
  (List.range k).foldl
    (fun st i =>
      let cl := clusters[i]?.getD []
      if 0 < cl.length then (st.1 ++ [clusterMean cl], st.2)
      else (st.1 ++ [pixels.getD (rand st.2 % pixels.length) (0, 0, 0)], st.2 + 1))
    ([], t)

/-- The convergence test (lines 112-121): every old/new centroid pair
exists and is within Euclidean distance 1 (`> 1` breaks convergence;
`!lastCentroids[i]`, a missing old centroid, also breaks it before the
distance is evaluated). -/
def kmeansConverged (lastCentroids centroids : List RGB) (k : ℕ) : Bool :=
  (List.range k).all fun i =>
    match lastCentroids[i]? with
    | none => false
    | some lc =>
      match centroids[i]? with
      | some c => decide (euclideanDistSq lc c ≤ 1)
      | none => false

/-- The main k-means loop (lines 82-124): assign, recompute, test
convergence; `fuel` counts the remaining `iterations++` steps, so the
top-level call passes 29 for `maxIterations = 30`.  Returns the final
centroids and the clusters of the last executed assignment. -/
def kmeansLoop (pixels : List RGB) (k : ℤ) (rand : ℕ → ℕ) :
    ℕ → List RGB → ℕ → Except String (List RGB × List (List RGB))
  | fuel, centroids, t =>
    match assignPixels pixels centroids k.toNat with
    | Except.error msg => Except.error msg
    | Except.ok clusters =>
      let r := newCentroidsOf pixels clusters k.toNat rand t
      if kmeansConverged centroids r.1 k.toNat then
        Except.ok (r.1, clusters)
      else
        match fuel with
        | 0 => Except.ok (r.1, clusters)
        | fuel + 1 => kmeansLoop pixels k rand fuel r.1 r.2

/-- `kmeans(pixels, k)` (lines 66-126).  `initFuel` bounds the
randomized initialization loop. -/
def kmeans (pixels : List RGB) (k : ℤ) (rand : ℕ → ℕ) (initFuel : ℕ) :
    Except String (List RGB × List (List RGB)) :=
  let (centroids, t) := kmeansInit pixels k rand initFuel [] [] 0
  kmeansLoop pixels k rand 29 centroids t

/-- C5 failing input: a nonempty two-pixel sample with `k = 3` (the
worker produces exactly this shape: any 1-to-4-pixel image with user
`k = 1` calls `kmeans` with `initialK = 5`).  The initialization stops
at 2 centroids (all distinct sample indices used), and the first
pixel's nearest-centroid loop still runs `i` up to `k - 1 = 2`, reads
`centroids[2] = undefined`, and throws — the ColorClusterer does NOT
degrade gracefully to fewer centroids as the spec claims. -/
theorem kmeans_crashes_on_small_sample :
    kmeans [(0, 0, 0), (10, 10, 10)] 3 (fun t => t) 10 =
      Except.error undefinedReadMsg := by
  rfl

/-! ### 4.4 RegionGrower (step 1 of `generatePbnImage`,
worker.js lines 285-324)

The RegionMap is `initialRegionMap`, modelled as a total function
`ℕ → ℕ` (0 = unassigned) updated pointwise; the region table is the
list of regions in creation (= ascending id) order, matching the JS
object keyed by integer-like ids, which iterates in ascending key
order.  The explicit `stack` drives a depth-first growth; pushing on a
JS array appends and popping takes the last element, which matches
head-push/head-pop on a Lean list with the neighbor fold consing in
source order. -/

/-- The RGB color of pixel `p` in the flat RGBA buffer
(`data[p*4], data[p*4+1], data[p*4+2]`). -/
def colorAt (data : ℕ → ℕ) (p : ℕ) : RGB :=
  (data (4 * p), data (4 * p + 1), data (4 * p + 2))

/-- A fresh region (line 291): empty pixel list, zero sums, inverted
bounding box (`minX = width, minY = height, maxX = maxY = -1`), and no
palette color yet (the JS object has no `color` property until step 2;
the placeholder index 0 is never read before step 2 assigns it). -/
def initRegion (rid width height : ℕ) : Region :=
  ⟨rid, [], 0, 0, 0, (width : ℤ), (height : ℤ), -1, -1, 0⟩

/-- The four neighbor indices pushed by the flood fill, in source order
(line 308): `pixelIndex - width, pixelIndex + width, pixelIndex - 1,
pixelIndex + 1` (JS numbers may go negative, hence `ℤ`). -/
def neighborsOf (width p : ℕ) : List ℤ :=
  [(p : ℤ) - width, (p : ℤ) + width, (p : ℤ) - 1, (p : ℤ) + 1]

/-- One neighbor inspection (lines 309-320): in bounds, unassigned,
in the same row or column as the popped pixel (the wrap-around guard
`isSameRow`), and seed-similar — then claim it in the map and push it.
The state is `(RegionMap, stack)`. -/
def growNeighbor (n width : ℕ) (data : ℕ → ℕ) (t : ℚ) (startColor : RGB)
    (rid x y : ℕ) (st : (ℕ → ℕ) × List ℕ) (nb : ℤ) : (ℕ → ℕ) × List ℕ :=
  if 0 ≤ nb ∧ nb < (n : ℤ) then
    let m := nb.toNat
    if st.1 m = 0 then
      if m % width = x ∨ m / width = y then
        if distLtThreshold startColor (colorAt data m) t then
          (Function.update st.1 m rid, m :: st.2)
        else st
      else st
    else st
  else st

/-- Region accumulation for a popped pixel (lines 297-306): append the
pixel, add its channels to the running sums, widen the bounding box. -/
def addPixel (data : ℕ → ℕ) (width : ℕ) (r : Region) (p : ℕ) : Region :=
  { r with
    pixels := r.pixels ++ [p]
    sumR := r.sumR + data (4 * p)
    sumG := r.sumG + data (4 * p + 1)
    sumB := r.sumB + data (4 * p + 2)
    minX := min r.minX ((p % width : ℕ) : ℤ)
    maxX := max r.maxX ((p % width : ℕ) : ℤ)
    minY := min r.minY ((p / width : ℕ) : ℤ)
    maxY := max r.maxY ((p / width : ℕ) : ℤ) }

/-- The stack-driven growth loop (lines 295-321).  Each iteration pops
one pixel, accumulates it into the region, and inspects its four
neighbors.  Fuel decreases once per pop; the flood-fill pass supplies
`n + 1`, which is proved sufficient below. -/
def growLoop (n width : ℕ) (data : ℕ → ℕ) (t : ℚ) (startColor : RGB)
    (rid : ℕ) : ℕ → (ℕ → ℕ) → List ℕ → Region → (ℕ → ℕ) × Region
  | 0, map, _, region => (map, region)
  | fuel + 1, map, stack, region =>
    match stack with
    | [] => (map, region)
    | p :: rest =>
      let region' := addPixel data width region p
      let st := (neighborsOf width p).foldl
        (growNeighbor n width data t startColor rid (p % width) (p / width))
        (map, rest)
      growLoop n width data t startColor rid fuel st.1 st.2 region'

/-- One step of the outer scan (lines 288-323): if pixel `i` is
unassigned, seed a new region with `i`'s own raw color and grow it.
State: `(RegionMap, region list, next region id)`. -/
def floodFillStep (width height : ℕ) (data : ℕ → ℕ) (t : ℚ)
    (st : (ℕ → ℕ) × List Region × ℕ) (i : ℕ) : (ℕ → ℕ) × List Region × ℕ :=
  if st.1 i = 0 then
    let res := growLoop (width * height) width data t (colorAt data i)
      st.2.2 (width * height + 1) (Function.update st.1 i st.2.2) [i]
      (initRegion st.2.2 width height)
    (res.1, st.2.1 ++ [res.2], st.2.2 + 1)
  else st

/-- Step 1 of `generatePbnImage` (lines 285-324): the flood-fill pass
over every pixel in raster order, starting from an all-zero RegionMap
and region id 1. -/
def floodFill (width height : ℕ) (data : ℕ → ℕ) (t : ℚ) :
    (ℕ → ℕ) × List Region × ℕ :=
  (List.range (width * height)).foldl (floodFillStep width height data t)
    (fun _ => 0, [], 1)

/-- Number of unassigned cells among the first `n`. -/
def countZeros (n : ℕ) (map : ℕ → ℕ) : ℕ :=
  ((Finset.range n).filter fun p => map p = 0).card

lemma countZeros_update (n m rid : ℕ) (map : ℕ → ℕ) (hm : m < n)
    (h0 : map m = 0) (hrid : rid ≠ 0) :
    countZeros n (Function.update map m rid) + 1 = countZeros n map := by
  unfold countZeros
  have hset : ((Finset.range n).filter fun p => Function.update map m rid p = 0)
      = (((Finset.range n).filter fun p => map p = 0).erase m) := by
    ext p
    simp only [Finset.mem_filter, Finset.mem_erase, Finset.mem_range]
    by_cases hp : p = m
    · subst hp
      simp [Function.update_same, hrid]
    · simp [Function.update_noteq hp, hp]
  rw [hset, Finset.card_erase_of_mem (by
    simp only [Finset.mem_filter, Finset.mem_range]
    exact ⟨hm, h0⟩)]
  have hmem : m ∈ (Finset.range n).filter fun p => map p = 0 := by
    simp only [Finset.mem_filter, Finset.mem_range]
    exact ⟨hm, h0⟩
  have hpos : 0 < ((Finset.range n).filter fun p => map p = 0).card :=
    Finset.card_pos.2 ⟨m, hmem⟩
  omega

lemma countZeros_le (n : ℕ) (map : ℕ → ℕ) : countZeros n map ≤ n := by
  unfold countZeros
  calc ((Finset.range n).filter fun p => map p = 0).card
      ≤ (Finset.range n).card := Finset.card_filter_le _ _
    _ = n := Finset.card_range n

/-- Case analysis for a single neighbor step: either nothing changes,
or one in-bounds unassigned cell is claimed and pushed. -/
lemma growNeighbor_cases (n width : ℕ) (data : ℕ → ℕ) (t : ℚ)
    (startColor : RGB) (rid x y : ℕ) (map : ℕ → ℕ) (stack : List ℕ)
    (nb : ℤ) :
    growNeighbor n width data t startColor rid x y (map, stack) nb
        = (map, stack) ∨
      ∃ m : ℕ, m < n ∧ map m = 0 ∧
        growNeighbor n width data t startColor rid x y (map, stack) nb
          = (Function.update map m rid, m :: stack) := by
  unfold growNeighbor
  by_cases h1 : 0 ≤ nb ∧ nb < (n : ℤ)
  · rw [if_pos h1]
    by_cases h2 : map nb.toNat = 0
    · by_cases h3 : nb.toNat % width = x ∨ nb.toNat / width = y
      · by_cases h4 : distLtThreshold startColor (colorAt data nb.toNat) t
        · refine Or.inr ⟨nb.toNat, ?_, h2, ?_⟩
          · omega
          · simp [h2, h3, h4]
        · simp only at h2 ⊢
          simp [h2, h3, h4]
      · simp only at h2 ⊢
        simp [h2, h3]
    · simp only at h2 ⊢
      simp [h2]
  · rw [if_neg h1]
    exact Or.inl rfl

/-- Invariants of the neighbor fold: it only turns in-range zero cells
into `rid` (one per push), keeps the old stack, pushes only fresh
cells, preserves `countZeros + stack length`, and every `rid` cell is
an old one or on the stack. -/
lemma growFold_spec (n width : ℕ) (data : ℕ → ℕ) (t : ℚ) (sc : RGB)
    (rid x y : ℕ) (hrid : rid ≠ 0) (l : List ℤ) :
    ∀ (map : ℕ → ℕ) (stack : List ℕ),
      stack.Nodup → (∀ q ∈ stack, q < n ∧ map q = rid) →
      ∀ st, st = l.foldl (growNeighbor n width data t sc rid x y)
        (map, stack) →
      (∀ q, st.1 q = map q ∨ (map q = 0 ∧ st.1 q = rid ∧ q < n)) ∧
      (∀ q ∈ stack, q ∈ st.2) ∧
      (∀ q ∈ st.2, q < n ∧ st.1 q = rid) ∧
      (∀ q ∈ st.2, q ∈ stack ∨ map q = 0) ∧
      st.2.Nodup ∧
      countZeros n st.1 + st.2.length = countZeros n map + stack.length ∧
      (∀ q, st.1 q = rid → map q = rid ∨ q ∈ st.2) := by
  induction l with
  | nil =>
    intro map stack hnd helem st hst
    subst hst
    refine ⟨fun q => Or.inl rfl, fun q hq => hq, helem, fun q hq => Or.inl hq,
      hnd, rfl, fun q hq => Or.inl hq⟩
  | cons nb l ih =>
    intro map stack hnd helem st hst
    rcases growNeighbor_cases n width data t sc rid x y map stack nb with
      hid | ⟨m, hmn, hm0, hupd⟩
    · rw [List.foldl_cons, hid] at hst
      exact ih map stack hnd helem st hst
    · rw [List.foldl_cons, hupd] at hst
      have hmstack : m ∉ stack := fun hmem => by
        have := (helem m hmem).2
        rw [hm0] at this
        exact hrid this.symm
      have hnd' : (m :: stack).Nodup := List.nodup_cons.2 ⟨hmstack, hnd⟩
      have helem' : ∀ q ∈ m :: stack, q < n ∧
          Function.update map m rid q = rid := by
        intro q hq
        rcases List.mem_cons.1 hq with rfl | hq'
        · exact ⟨hmn, Function.update_same _ _ _⟩
        · have h := helem q hq'
          have hqm : q ≠ m := fun he => by
            rw [he, hm0] at h
            exact hrid h.2.symm
          exact ⟨h.1, by rw [Function.update_noteq hqm]; exact h.2⟩
      obtain ⟨f1, f2, f3, f4, f5, f6, f7⟩ :=
        ih (Function.update map m rid) (m :: stack) hnd' helem' st hst
      refine ⟨?_, ?_, f3, ?_, f5, ?_, ?_⟩
      · intro q
        rcases f1 q with h | ⟨h0, hq, hqn⟩
        · by_cases hqm : q = m
          · subst hqm
            rw [Function.update_same] at h
            exact Or.inr ⟨hm0, h, hmn⟩
          · rw [Function.update_noteq hqm] at h
            exact Or.inl h
        · have hqm : q ≠ m := fun he => by
            rw [he, Function.update_same] at h0
            exact hrid h0
          rw [Function.update_noteq hqm] at h0
          exact Or.inr ⟨h0, hq, hqn⟩
      · intro q hq
        exact f2 q (List.mem_cons_of_mem m hq)
      · intro q hq
        rcases f4 q hq with hq' | h0
        · rcases List.mem_cons.1 hq' with rfl | hq''
          · exact Or.inr hm0
          · exact Or.inl hq''
        · by_cases hqm : q = m
          · subst hqm
            exact Or.inr hm0
          · rw [Function.update_noteq hqm] at h0
            exact Or.inr h0
      · rw [f6, List.length_cons]
        have := countZeros_update n m rid map hmn hm0 hrid
        omega
      · intro q hq
        rcases f7 q hq with h | h
        · by_cases hqm : q = m
          · subst hqm
            exact Or.inr (f2 _ (List.mem_cons_self _ _))
          · rw [Function.update_noteq hqm] at h
            exact Or.inl h
        · exact Or.inr h

/-- Main invariant of the growth loop.  Given enough fuel (one more
than `countZeros + stack length`, which strictly decreases per pop),
the loop claims only zero cells for `rid`, ends with a duplicate-free
pixel list that is exactly the set of `rid`-cells of the final map,
and preserves the region id. -/
lemma growLoop_spec (n width : ℕ) (data : ℕ → ℕ) (t : ℚ) (sc : RGB)
    (rid : ℕ) (hrid : rid ≠ 0) :
    ∀ (fuel : ℕ) (map : ℕ → ℕ) (stack : List ℕ) (region : Region),
      countZeros n map + stack.length < fuel →
      stack.Nodup →
      (∀ q ∈ stack, q < n ∧ map q = rid) →
      region.pixels.Nodup →
      (∀ q ∈ region.pixels, q < n ∧ map q = rid) →
      (∀ q ∈ region.pixels, q ∉ stack) →
      (∀ q, q < n → map q = rid → q ∈ region.pixels ∨ q ∈ stack) →
      ∀ res, res = growLoop n width data t sc rid fuel map stack region →
      (∀ q, res.1 q = map q ∨ (map q = 0 ∧ res.1 q = rid ∧ q < n)) ∧
      res.2.pixels.Nodup ∧
      (∀ q ∈ res.2.pixels, q < n ∧ res.1 q = rid) ∧
      (∀ q, q < n → res.1 q = rid → q ∈ res.2.pixels) ∧
      res.2.id = region.id := by
  intro fuel
  induction fuel with
  | zero =>
    intro map stack region hfuel
    omega
  | succ fuel ih =>
    intro map stack region hfuel hnd hstack hpnd hpix hdisj hcover res hres
    cases stack with
    | nil =>
      rw [growLoop] at hres
      subst hres
      refine ⟨fun q => Or.inl rfl, hpnd, hpix, ?_, rfl⟩
      intro q hq hrq
      rcases hcover q hq hrq with h | h
      · exact h
      · simp at h
    | cons p rest =>
      simp only [growLoop] at hres
      have hp := hstack p (List.mem_cons_self p rest)
      have hrestnd : rest.Nodup := (List.nodup_cons.1 hnd).2
      have hprest : p ∉ rest := (List.nodup_cons.1 hnd).1
      have hrest : ∀ q ∈ rest, q < n ∧ map q = rid := fun q hq =>
        hstack q (List.mem_cons_of_mem p hq)
      obtain ⟨f1, f2, f3, f4, f5, f6, f7⟩ :=
        growFold_spec n width data t sc rid (p % width) (p / width) hrid
          (neighborsOf width p) map rest hrestnd hrest
          ((neighborsOf width p).foldl
            (growNeighbor n width data t sc rid (p % width) (p / width))
            (map, rest)) rfl
      set st := (neighborsOf width p).foldl
        (growNeighbor n width data t sc rid (p % width) (p / width))
        (map, rest) with hstdef
      have hpixnd' : (addPixel data width region p).pixels.Nodup := by
        unfold addPixel
        simp only [List.nodup_append, List.nodup_singleton]
        refine ⟨hpnd, trivial, ?_⟩
        intro a ha
        simp only [List.mem_singleton]
        intro he
        subst he
        exact hdisj a ha (List.mem_cons_self _ _)
      have hpixmem' : ∀ q ∈ (addPixel data width region p).pixels,
          q < n ∧ st.1 q = rid := by
        intro q hq
        unfold addPixel at hq
        simp only [List.mem_append, List.mem_singleton] at hq
        have hqr : q < n ∧ map q = rid := by
          rcases hq with hq | rfl
          · exact hpix q hq
          · exact hp
        refine ⟨hqr.1, ?_⟩
        rcases f1 q with h | ⟨h0, _, _⟩
        · rw [h]; exact hqr.2
        · rw [hqr.2] at h0; exact absurd h0 hrid
      have hdisj' : ∀ q ∈ (addPixel data width region p).pixels, q ∉ st.2 := by
        intro q hq hq2
        unfold addPixel at hq
        simp only [List.mem_append, List.mem_singleton] at hq
        have hqr : q < n ∧ map q = rid := by
          rcases hq with hq' | rfl
          · exact hpix q hq'
          · exact hp
        rcases f4 q hq2 with hq' | h0
        · rcases hq with hq'' | rfl
          · exact hdisj q hq'' (List.mem_cons_of_mem p hq')
          · exact hprest hq'
        · rw [hqr.2] at h0; exact hrid h0
      have hcover' : ∀ q, q < n → st.1 q = rid →
          q ∈ (addPixel data width region p).pixels ∨ q ∈ st.2 := by
        intro q hq hrq
        rcases f7 q hrq with h | h
        · rcases hcover q hq h with h' | h'
          · left
            unfold addPixel
            simp only [List.mem_append, List.mem_singleton]
            exact Or.inl h'
          · rcases List.mem_cons.1 h' with rfl | h''
            · left
              unfold addPixel
              simp only [List.mem_append, List.mem_singleton]
              exact Or.inr trivial
            · exact Or.inr (f2 q h'')
        · exact Or.inr h
      have hfuel' : countZeros n st.1 + st.2.length < fuel := by
        have := f6
        simp only [List.length_cons] at hfuel
        omega
      obtain ⟨g1, g2, g3, g4, g5⟩ :=
        ih st.1 st.2 (addPixel data width region p) hfuel' f5 f3 hpixnd'
          hpixmem' hdisj' hcover' res hres
      refine ⟨?_, g2, g3, g4, ?_⟩
      · intro q
        rcases g1 q with h | ⟨h0, hq, hqn⟩
        · rcases f1 q with h' | ⟨h0', hq', hqn'⟩
          · rw [h, h']
            exact Or.inl rfl
          · rw [h]
            exact Or.inr ⟨h0', hq', hqn'⟩
        · rcases f1 q with h' | ⟨h0', hq', hqn'⟩
          · rw [h'] at h0
            exact Or.inr ⟨h0, hq, hqn⟩
          · rw [hq'] at h0
            exact absurd h0 hrid
      · rw [g5]
        rfl

/-- Invariant of the outer flood-fill scan after the first `m` pixels
have been processed: the processed prefix is assigned; every region's
pixel list is duplicate-free, in range, and is exactly the set of map
cells holding its id; region ids are positive, below the next id, and
pairwise distinct; every nonzero map value names a region in the
table; cells beyond the raster are untouched. -/
def FloodInv (n : ℕ) (st : (ℕ → ℕ) × List Region × ℕ) (m : ℕ) : Prop :=
  (∀ j, j < m → st.1 j ≠ 0) ∧
  (∀ r ∈ st.2.1, r.pixels.Nodup) ∧
  (∀ r ∈ st.2.1, ∀ q, q < n → (st.1 q = r.id ↔ q ∈ r.pixels)) ∧
  (∀ r ∈ st.2.1, ∀ q ∈ r.pixels, q < n) ∧
  (∀ r ∈ st.2.1, 0 < r.id ∧ r.id < st.2.2) ∧
  (st.2.1.map Region.id).Nodup ∧
  (∀ q, q < n → st.1 q ≠ 0 → ∃ r ∈ st.2.1, r.id = st.1 q) ∧
  (∀ q, n ≤ q → st.1 q = 0) ∧
  1 ≤ st.2.2

lemma floodFillStep_inv (width height : ℕ) (data : ℕ → ℕ) (t : ℚ)
    (m : ℕ) (st : (ℕ → ℕ) × List Region × ℕ)
    (hm : m < width * height)
    (hinv : FloodInv (width * height) st m) :
    FloodInv (width * height) (floodFillStep width height data t st m)
      (m + 1) := by
  set n := width * height with hn
  obtain ⟨J1, J2, J3, J4, J5, J6, J7, J8, J9⟩ := hinv
  by_cases h0 : st.1 m = 0
  · have hrid : st.2.2 ≠ 0 := by omega
    have hmeasure : countZeros n (Function.update st.1 m st.2.2) +
        ([m] : List ℕ).length < n + 1 := by
      have h1 := countZeros_update n m st.2.2 st.1 hm h0 hrid
      have h2 := countZeros_le n st.1
      simp only [List.length_cons, List.length_nil]
      omega
    obtain ⟨g1, g2, g3, g4, g5⟩ :=
      growLoop_spec n width data t (colorAt data m) st.2.2 hrid (n + 1)
        (Function.update st.1 m st.2.2) [m] (initRegion st.2.2 width height)
        hmeasure (List.nodup_singleton m)
        (by
          intro q hq
          rw [List.mem_singleton] at hq
          subst hq
          exact ⟨hm, Function.update_same _ _ _⟩)
        List.nodup_nil
        (by intro q hq; simp [initRegion] at hq)
        (by intro q hq; simp [initRegion] at hq)
        (by
          intro q hq hrq
          right
          rw [List.mem_singleton]
          by_contra hqm
          rw [Function.update_noteq hqm] at hrq
          obtain ⟨r, hrmem, hridq⟩ := J7 q hq (by rw [hrq]; exact hrid)
          have := (J5 r hrmem).2
          omega)
        _ rfl
    have hstep : floodFillStep width height data t st m =
        ((growLoop n width data t (colorAt data m) st.2.2 (n + 1)
            (Function.update st.1 m st.2.2) [m]
            (initRegion st.2.2 width height)).1,
         st.2.1 ++ [(growLoop n width data t (colorAt data m) st.2.2 (n + 1)
            (Function.update st.1 m st.2.2) [m]
            (initRegion st.2.2 width height)).2],
         st.2.2 + 1) := by
      unfold floodFillStep
      rw [if_pos h0]
    rw [hstep]
    unfold FloodInv
    dsimp only
    set res := growLoop n width data t (colorAt data m) st.2.2 (n + 1)
      (Function.update st.1 m st.2.2) [m] (initRegion st.2.2 width height)
      with hresdef
    have hresid : res.2.id = st.2.2 := by
      rw [g5]
      rfl
    refine ⟨?_, ?_, ?_, ?_, ?_, ?_, ?_, ?_, ?_⟩
    · -- processed prefix assigned
      intro j hj
      have hmap₁ : Function.update st.1 m st.2.2 j ≠ 0 := by
        by_cases hjm : j = m
        · subst hjm
          rw [Function.update_same]
          exact hrid
        · rw [Function.update_noteq hjm]
          exact J1 j (by omega)
      rcases g1 j with h | ⟨hz, _, _⟩
      · rw [h]; exact hmap₁
      · exact absurd hz hmap₁
    · -- pixel lists duplicate-free
      intro r hr
      rcases List.mem_append.1 hr with hr | hr
      · exact J2 r hr
      · rw [List.mem_singleton] at hr
        subst hr
        exact g2
    · -- map cells with a region's id = its pixel set
      intro r hr q hq
      rcases List.mem_append.1 hr with hr | hr
      · have hlt := (J5 r hr).2
        have hpos := (J5 r hr).1
        constructor
        · intro hres
          rcases g1 q with h | ⟨_, hz, _⟩
          · rw [h] at hres
            have hqm : q ≠ m := by
              intro he
              rw [he, Function.update_same] at hres
              omega
            rw [Function.update_noteq hqm] at hres
            exact (J3 r hr q hq).1 hres
          · rw [hres] at hz
            omega
        · intro hpix
          have hst : st.1 q = r.id := (J3 r hr q hq).2 hpix
          have hqm : q ≠ m := by
            intro he
            rw [he, h0] at hst
            omega
          have hmap₁ : Function.update st.1 m st.2.2 q = r.id := by
            rw [Function.update_noteq hqm]; exact hst
          rcases g1 q with h | ⟨hz, _, _⟩
          · rw [h]; exact hmap₁
          · rw [hmap₁] at hz
            omega
      · rw [List.mem_singleton] at hr
        subst hr
        rw [hresid]
        constructor
        · intro hres
          exact g4 q hq hres
        · intro hpix
          exact (g3 q hpix).2
    · -- pixels in range
      intro r hr q hq
      rcases List.mem_append.1 hr with hr | hr
      · exact J4 r hr q hq
      · rw [List.mem_singleton] at hr
        subst hr
        exact (g3 q hq).1
    · -- ids positive and below next id
      intro r hr
      rcases List.mem_append.1 hr with hr | hr
      · have := J5 r hr
        omega
      · rw [List.mem_singleton] at hr
        subst hr
        rw [hresid]
        omega
    · -- ids pairwise distinct
      rw [List.map_append]
      rw [List.nodup_append]
      refine ⟨J6, by simp, ?_⟩
      intro a ha
      simp only [List.map_cons, List.map_nil, List.mem_singleton, hresid]
      intro he
      subst he
      rcases List.mem_map.1 ha with ⟨r, hr, hid⟩
      have := (J5 r hr).2
      omega
    · -- nonzero map values name live regions
      intro q hq hqz
      rcases g1 q with h | ⟨_, hz, _⟩
      · rw [h] at hqz ⊢
        by_cases hqm : q = m
        · subst hqm
          rw [Function.update_same]
          exact ⟨res.2, List.mem_append.2 (Or.inr (List.mem_singleton.2 rfl)),
            hresid⟩
        · rw [Function.update_noteq hqm] at hqz ⊢
          obtain ⟨r, hr, hid⟩ := J7 q hq hqz
          exact ⟨r, List.mem_append.2 (Or.inl hr), hid⟩
      · rw [hz]
        exact ⟨res.2, List.mem_append.2 (Or.inr (List.mem_singleton.2 rfl)),
          hresid⟩
    · -- cells beyond the raster untouched
      intro q hq
      rcases g1 q with h | ⟨_, _, hqn⟩
      · rw [h, Function.update_noteq (by omega)]
        exact J8 q hq
      · omega
    · omega
  · have hstep : floodFillStep width height data t st m = st := by
      unfold floodFillStep
      rw [if_neg h0]
    rw [hstep]
    refine ⟨?_, J2, J3, J4, J5, J6, J7, J8, J9⟩
    intro j hj
    by_cases hjm : j = m
    · subst hjm
      exact h0
    · exact J1 j (by omega)

lemma floodFill_inv (width height : ℕ) (data : ℕ → ℕ) (t : ℚ) :
    ∀ m, m ≤ width * height →
      FloodInv (width * height)
        ((List.range m).foldl (floodFillStep width height data t)
          (fun _ => 0, [], 1)) m := by
  intro m
  induction m with
  | zero =>
    intro _
    refine ⟨?_, ?_, ?_, ?_, ?_, ?_, ?_, ?_, ?_⟩ <;>
      simp [List.range_zero, List.foldl_nil]
  | succ m ih =>
    intro hm
    rw [List.range_succ, List.foldl_append, List.foldl_cons, List.foldl_nil]
    exact floodFillStep_inv width height data t m _ (by omega) (ih (by omega))

/-- C1: after the RegionGrower's flood-fill pass and before any
merging, the region pixel sets partition the image: every pixel is
assigned (nonzero RegionMap entry), a region's pixel set is exactly
the set of pixels mapped to its id, and every pixel lies in exactly
one region of the table. -/
theorem floodFill_partition (width height : ℕ) (data : ℕ → ℕ) (t : ℚ) :
    (∀ p, p < width * height → (floodFill width height data t).1 p ≠ 0) ∧
    (∀ r ∈ (floodFill width height data t).2.1, ∀ p, p < width * height →
      ((floodFill width height data t).1 p = r.id ↔ p ∈ r.pixels)) ∧
    (∀ p, p < width * height →
      ∃! r, r ∈ (floodFill width height data t).2.1 ∧ p ∈ r.pixels) := by
  obtain ⟨J1, J2, J3, J4, J5, J6, J7, J8, J9⟩ :=
    floodFill_inv width height data t (width * height) (le_refl _)
  have hff : floodFill width height data t =
      (List.range (width * height)).foldl
        (floodFillStep width height data t) (fun _ => 0, [], 1) := rfl
  rw [hff]
  refine ⟨J1, J3, ?_⟩
  intro p hp
  obtain ⟨r, hr, hid⟩ := J7 p hp (J1 p hp)
  refine ⟨r, ⟨hr, (J3 r hr p hp).1 hid.symm⟩, ?_⟩
  rintro r' ⟨hr', hpix'⟩
  have hid' : _ = r'.id := (J3 r' hr' p hp).2 hpix'
  have heq : r'.id = r.id := by rw [← hid', ← hid]
  exact List.inj_on_of_nodup_map J6 hr' hr heq

/-! ### Step 2 of `generatePbnImage`: average colors and palette
assignment (worker.js lines 326-335) -/

/-- `findClosestColor(avgColor, colors)` (lines 183-194) applied to a
region's average color `(sumR/len, sumG/len, sumB/len)` (line 330),
returning the INDEX of the chosen palette entry (the JS function
returns the array reference; palette entries are distinct array
objects, so reference identity of assigned colors is identity of these
indices).  Comparisons of `euclideanDistance(avg, color)` values are
scaled by the positive constant `len^2`, clearing the division:
the squared distance numerator is `(sumR - r*len)^2 + ...`.
`minDistance` starts at `Infinity` (`none`), so the first palette
entry always becomes the initial closest, matching
`closestColor = colors[0]`.  (For `len = 0` — an empty region, deleted
anyway — JS compares `NaN < Infinity`, keeping `colors[0]`; here all
numerators are equal so the first entry is kept too: index 0.) -/
def findClosestAux (sumR sumG sumB len : ℕ) :
    List RGB → ℕ → ℕ × Option ℤ → ℕ × Option ℤ
  | [], _, st => st
  | c :: rest, i, st =>
    let d := ((sumR : ℤ) - c.1 * len) ^ 2 + ((sumG : ℤ) - c.2.1 * len) ^ 2 +
      ((sumB : ℤ) - c.2.2 * len) ^ 2
    match st.2 with
    | none => findClosestAux sumR sumG sumB len rest (i + 1) (i, some d)
    | some m =>
      if d < m then findClosestAux sumR sumG sumB len rest (i + 1) (i, some d)
      else findClosestAux sumR sumG sumB len rest (i + 1) st

/-- See `findClosestAux`. -/
def findClosestColor (sumR sumG sumB len : ℕ) (colors : List RGB) : ℕ :=
  (findClosestAux sumR sumG sumB len colors 0 (0, none)).1

lemma findClosestAux_lt (sumR sumG sumB len N : ℕ) :
    ∀ (l : List RGB) (i : ℕ) (st : ℕ × Option ℤ),
      st.1 < N → i + l.length ≤ N →
      (findClosestAux sumR sumG sumB len l i st).1 < N := by
  intro l
  induction l with
  | nil => intro i st hst _; exact hst
  | cons c rest ih =>
    intro i st hst hlen
    rw [findClosestAux]
    simp only [List.length_cons] at hlen
    cases hm : st.2 with
    | none =>
      exact ih (i + 1) (i, _) (by simp; omega) (by omega)
    | some m =>
      dsimp only
      by_cases hd : ((sumR : ℤ) - c.1 * len) ^ 2 + ((sumG : ℤ) - c.2.1 * len) ^ 2 +
          ((sumB : ℤ) - c.2.2 * len) ^ 2 < m
      · rw [if_pos hd]
        exact ih (i + 1) (i, _) (by simp; omega) (by omega)
      · rw [if_neg hd]
        exact ih (i + 1) st hst (by omega)

lemma findClosestColor_lt (sumR sumG sumB len : ℕ) (colors : List RGB)
    (hne : colors ≠ []) :
    findClosestColor sumR sumG sumB len colors < colors.length := by
  unfold findClosestColor
  have hpos : 0 < colors.length := List.length_pos.2 hne
  exact findClosestAux_lt sumR sumG sumB len colors.length colors 0 (0, none)
    hpos (by omega)

/-- Step 2 of `generatePbnImage` (lines 326-335): delete empty regions
and assign each survivor the closest palette color to its average
RGB (the region table iterates in ascending id order). -/
def assignColors (regions : List Region) (colors : List RGB) : List Region :=
  regions.filterMap fun r =>
    if 0 < r.pixels.length then
      some { r with
        color := findClosestColor r.sumR r.sumG r.sumB r.pixels.length colors }
    else none

/-! ### 4.5 RegionMerger (step 3 of `generatePbnImage`,
worker.js lines 337-393) -/

/-- `initialRegions[rid]` lookup in the region table. -/
def findRegion (regions : List Region) (rid : ℕ) : Option Region :=
  regions.find? fun r => r.id == rid

/-- One neighbor inspection of the neighbor-id collection
(lines 354-361): in-bounds, not the candidate itself, and live — then
added to the id list (a JS `Set` iterated in insertion order; `acc`
keeps that order, without duplicates). -/
def addNeighborId (n : ℕ) (map : ℕ → ℕ) (regions : List Region)
    (selfId : ℕ) (acc : List ℕ) (nb : ℤ) : List ℕ :=
  if 0 ≤ nb ∧ nb < (n : ℤ) then
    if map nb.toNat ≠ selfId ∧ (findRegion regions (map nb.toNat)).isSome then
      if map nb.toNat ∈ acc then acc else acc ++ [map nb.toNat]
    else acc
  else acc

/-- The 4-connected neighbor region ids of a candidate region
(lines 351-362), in first-encounter order. -/
def neighborIdsOf (n width : ℕ) (map : ℕ → ℕ) (regions : List Region)
    (r : Region) : List ℕ :=
  r.pixels.foldl
    (fun acc p =>
      (neighborsOf width p).foldl (addNeighborId n map regions r.id) acc)
    []

/-- The merge-target scan (lines 364-378): the first neighbor sharing
the candidate's assigned palette color short-circuits the search
(`neighbor.color === region.color`, reference identity = index
identity); otherwise the neighbor with minimum color distance
(strictly improving scan, `minDiff` starts at `Infinity`) wins.
A dead id (impossible: only live ids are collected) is skipped. -/
def bestNeighborLoop (regions : List Region) (colors : List RGB)
    (rcolor : ℕ) : List ℕ → Option ℤ → Option ℕ → Option ℕ
  | [], _, best => best
  | nid :: rest, minDiff, best =>
    match findRegion regions nid with
    | none => bestNeighborLoop regions colors rcolor rest minDiff best
    | some nb =>
      if nb.color = rcolor then some nid
      else
        let diff := euclideanDistSq (colors.getD rcolor (0, 0, 0))
          (colors.getD nb.color (0, 0, 0))
        match minDiff with
        | none => bestNeighborLoop regions colors rcolor rest (some diff)
            (some nid)
        | some m =>
          if diff < m then
            bestNeighborLoop regions colors rcolor rest (some diff) (some nid)
          else bestNeighborLoop regions colors rcolor rest minDiff best

/-- The merge commit (lines 380-392): every pixel of the candidate is
reassigned to the target id in the RegionMap, the candidate's pixels
are appended to the target and its bounding box folded in, and the
candidate is deleted from the table. -/
def applyMerge (map : ℕ → ℕ) (regions : List Region) (r : Region)
    (targetId : ℕ) : (ℕ → ℕ) × List Region :=
  (r.pixels.foldl (fun m p => Function.update m p targetId) map,
   (regions.map fun s =>
      if s.id = targetId then
        { s with
          pixels := s.pixels ++ r.pixels
          minX := min s.minX r.minX
          minY := min s.minY r.minY
          maxX := max s.maxX r.maxX
          maxY := max s.maxY r.maxY }
      else s).filter fun s => s.id != r.id)

/-- One iteration of the merge pass (lines 339-393) for the id `rid`
from the pre-sorted snapshot: skip if already deleted
(`if (!region) continue`), skip if neither small nor thin, pick the
best live neighbor, and merge into it (a candidate with no live
neighbor is left unmerged). -/
def mergeStep (n width height minRegionSize : ℕ) (thinT : ℚ)
    (colors : List RGB) (st : (ℕ → ℕ) × List Region) (rid : ℕ) :
    (ℕ → ℕ) × List Region :=
  match findRegion st.2 rid with
  | none => st
  | some r =>
    if ¬ (isSmall r minRegionSize || isThin r width height thinT) then st
    else
      match bestNeighborLoop st.2 colors r.color
          (neighborIdsOf n width st.1 st.2 r) none none with
      | none => st
      | some targetId => applyMerge st.1 st.2 r targetId

instance : IsTotal Region (fun a b : Region => a.pixels.length ≤ b.pixels.length) :=
  ⟨fun a b => le_total a.pixels.length b.pixels.length⟩

instance : IsTrans Region (fun a b : Region => a.pixels.length ≤ b.pixels.length) :=
  ⟨fun _ _ _ hab hbc => le_trans hab hbc⟩

/-- `sortedRegionIds` (line 338): the region ids sorted ascending by
pixel count, computed once before any merge (`Object.keys` yields ids
in ascending order — the table's list order — and JS `sort` is
stable). -/
def sortedRegionIds (regions : List Region) : List ℕ :=
  (List.insertionSort (fun a b : Region => a.pixels.length ≤ b.pixels.length)
    regions).map Region.id

/-- Step 3 of `generatePbnImage`: the whole merge pass. -/
def mergeRegions (n width height minRegionSize : ℕ) (thinT : ℚ)
    (colors : List RGB) (map : ℕ → ℕ) (regions : List Region) :
    (ℕ → ℕ) × List Region :=
  (sortedRegionIds regions).foldl
    (mergeStep n width height minRegionSize thinT colors) (map, regions)

lemma findRegion_some (regions : List Region) (rid : ℕ) (r : Region)
    (h : findRegion regions rid = some r) : r ∈ regions ∧ r.id = rid := by
  unfold findRegion at h
  refine ⟨List.mem_of_find?_eq_some h, ?_⟩
  have := List.find?_some h
  simpa using this

lemma findRegion_isSome (regions : List Region) (rid : ℕ)
    (h : (findRegion regions rid).isSome) : ∃ r ∈ regions, r.id = rid := by
  cases hfr : findRegion regions rid with
  | none => rw [hfr] at h; simp at h
  | some r =>
    obtain ⟨hmem, hid⟩ := findRegion_some regions rid r hfr
    exact ⟨r, hmem, hid⟩

lemma foldl_update_eq (ps : List ℕ) (v : ℕ) :
    ∀ (map : ℕ → ℕ) (q : ℕ),
      (ps.foldl (fun m p => Function.update m p v) map) q =
        if q ∈ ps then v else map q := by
  induction ps with
  | nil => intro map q; simp
  | cons p rest ih =>
    intro map q
    rw [List.foldl_cons, ih]
    by_cases hq : q ∈ rest
    · simp [hq, List.mem_cons]
    · by_cases hqp : q = p
      · subst hqp
        simp [hq, Function.update_same, List.mem_cons]
      · simp [hq, hqp, Function.update_noteq hqp, List.mem_cons]

lemma addNeighborId_spec (n : ℕ) (map : ℕ → ℕ) (regions : List Region)
    (selfId : ℕ) (acc : List ℕ) (nb : ℤ) :
    ∀ x ∈ addNeighborId n map regions selfId acc nb,
      x ∈ acc ∨ (x ≠ selfId ∧ (findRegion regions x).isSome) := by
  intro x hx
  unfold addNeighborId at hx
  by_cases h1 : 0 ≤ nb ∧ nb < (n : ℤ)
  · rw [if_pos h1] at hx
    by_cases h2 : map nb.toNat ≠ selfId ∧
        (findRegion regions (map nb.toNat)).isSome
    · rw [if_pos h2] at hx
      by_cases h3 : map nb.toNat ∈ acc
      · rw [if_pos h3] at hx
        exact Or.inl hx
      · rw [if_neg h3] at hx
        rcases List.mem_append.1 hx with h | h
        · exact Or.inl h
        · rw [List.mem_singleton] at h
          subst h
          exact Or.inr h2
    · rw [if_neg h2] at hx
      exact Or.inl hx
  · rw [if_neg h1] at hx
    exact Or.inl hx

lemma foldlAddNeighbor_all (n : ℕ) (map : ℕ → ℕ) (regions : List Region)
    (selfId : ℕ) (l : List ℤ) :
    ∀ acc, (∀ x ∈ acc, x ≠ selfId ∧ (findRegion regions x).isSome) →
      ∀ x ∈ l.foldl (addNeighborId n map regions selfId) acc,
        x ≠ selfId ∧ (findRegion regions x).isSome := by
  induction l with
  | nil => intro acc hacc x hx; exact hacc x hx
  | cons nb rest ih =>
    intro acc hacc x hx
    rw [List.foldl_cons] at hx
    refine ih _ ?_ x hx
    intro y hy
    rcases addNeighborId_spec n map regions selfId acc nb y hy with h | h
    · exact hacc y h
    · exact h

lemma neighborIdsOf_spec (n width : ℕ) (map : ℕ → ℕ)
    (regions : List Region) (r : Region) :
    ∀ x ∈ neighborIdsOf n width map regions r,
      x ≠ r.id ∧ (findRegion regions x).isSome := by
  unfold neighborIdsOf
  suffices h : ∀ (ps : List ℕ) (acc : List ℕ),
      (∀ x ∈ acc, x ≠ r.id ∧ (findRegion regions x).isSome) →
      ∀ x ∈ ps.foldl
        (fun acc p =>
          (neighborsOf width p).foldl (addNeighborId n map regions r.id) acc)
        acc,
        x ≠ r.id ∧ (findRegion regions x).isSome by
    exact h r.pixels [] (by intro x hx; simp at hx)
  intro ps
  induction ps with
  | nil => intro acc hacc x hx; exact hacc x hx
  | cons p rest ih =>
    intro acc hacc x hx
    rw [List.foldl_cons] at hx
    exact ih _ (foldlAddNeighbor_all n map regions r.id (neighborsOf width p)
      acc hacc) x hx

lemma bestNeighborLoop_mem (regions : List Region) (colors : List RGB)
    (rcolor : ℕ) :
    ∀ (l : List ℕ) (minDiff : Option ℤ) (best : Option ℕ) (x : ℕ),
      bestNeighborLoop regions colors rcolor l minDiff best = some x →
      best = some x ∨ x ∈ l := by
  intro l
  induction l with
  | nil =>
    intro minDiff best x h
    rw [bestNeighborLoop] at h
    exact Or.inl h
  | cons nid rest ih =>
    intro minDiff best x h
    rw [bestNeighborLoop] at h
    cases hfr : findRegion regions nid with
    | none =>
      rw [hfr] at h
      dsimp only at h
      rcases ih minDiff best x h with h' | h'
      · exact Or.inl h'
      · exact Or.inr (List.mem_cons_of_mem nid h')
    | some nb =>
      rw [hfr] at h
      dsimp only at h
      by_cases hcol : nb.color = rcolor
      · rw [if_pos hcol] at h
        cases h
        exact Or.inr (List.mem_cons_self _ _)
      · rw [if_neg hcol] at h
        cases hmd : minDiff with
        | none =>
          rw [hmd] at h
          dsimp only at h
          rcases ih _ _ x h with h' | h'
          · cases h'
            exact Or.inr (List.mem_cons_self _ _)
          · exact Or.inr (List.mem_cons_of_mem nid h')
        | some m =>
          rw [hmd] at h
          dsimp only at h
          by_cases hdf : euclideanDistSq (colors.getD rcolor (0, 0, 0))
              (colors.getD nb.color (0, 0, 0)) < m
          · rw [if_pos hdf] at h
            rcases ih _ _ x h with h' | h'
            · cases h'
              exact Or.inr (List.mem_cons_self _ _)
            · exact Or.inr (List.mem_cons_of_mem nid h')
          · rw [if_neg hdf] at h
            rcases ih _ _ x h with h' | h'
            · exact Or.inl h'
            · exact Or.inr (List.mem_cons_of_mem nid h')

/-- The RegionMap/Region-table liveness invariant (spec section 3 and
claim C6): every in-range cell is assigned, every assigned id resolves
to a live region, a live region's pixel list covers all cells holding
its id, ids are pairwise distinct, and no live region has id 0. -/
def MergeInv (n : ℕ) (map : ℕ → ℕ) (regions : List Region) : Prop :=
  (∀ q, q < n → map q ≠ 0) ∧
  (∀ q, q < n → ∃ r ∈ regions, r.id = map q) ∧
  (∀ r ∈ regions, ∀ q, q < n → map q = r.id → q ∈ r.pixels) ∧
  (regions.map Region.id).Nodup ∧
  (∀ r ∈ regions, r.id ≠ 0)

instance (n : ℕ) (map : ℕ → ℕ) (regions : List Region) :
    Decidable (MergeInv n map regions) := by
  unfold MergeInv
  infer_instance

/-- Core preservation argument for one merge iteration. -/
lemma mergeStep_inv (n width height minRegionSize : ℕ) (thinT : ℚ)
    (colors : List RGB) (map : ℕ → ℕ) (regions : List Region) (rid : ℕ)
    (hinv : MergeInv n map regions) :
    MergeInv n
      (mergeStep n width height minRegionSize thinT colors (map, regions)
        rid).1
      (mergeStep n width height minRegionSize thinT colors (map, regions)
        rid).2 := by
  obtain ⟨I1, I2, I3, I4, I5⟩ := hinv
  unfold mergeStep
  cases hfr : findRegion regions rid with
  | none => exact ⟨I1, I2, I3, I4, I5⟩
  | some r =>
    dsimp only
    by_cases hcand : ¬ (isSmall r minRegionSize ||
        isThin r width height thinT)
    · rw [if_pos hcand]
      exact ⟨I1, I2, I3, I4, I5⟩
    · rw [if_neg hcand]
      cases hbest : bestNeighborLoop regions colors r.color
          (neighborIdsOf n width map regions r) none none with
      | none => exact ⟨I1, I2, I3, I4, I5⟩
      | some targetId =>
        dsimp only
        obtain ⟨hrmem, hrid⟩ := findRegion_some regions rid r hfr
        have htarget : targetId ≠ r.id ∧
            (findRegion regions targetId).isSome := by
          rcases bestNeighborLoop_mem regions colors r.color _ none none
            targetId hbest with h | h
          · cases h
          · exact neighborIdsOf_spec n width map regions r targetId h
        obtain ⟨t0, ht0mem, ht0id⟩ := findRegion_isSome regions targetId
          htarget.2
        have htid0 : targetId ≠ 0 := by
          rw [← ht0id]
          exact I5 t0 ht0mem
        unfold applyMerge
        dsimp only
        -- membership in the post-merge table
        have hmem' : ∀ s', s' ∈ ((regions.map fun s =>
            if s.id = targetId then
              { s with
                pixels := s.pixels ++ r.pixels
                minX := min s.minX r.minX
                minY := min s.minY r.minY
                maxX := max s.maxX r.maxX
                maxY := max s.maxY r.maxY }
            else s).filter fun s => s.id != r.id) ↔
            ∃ s ∈ regions, s.id ≠ r.id ∧
              s' = (if s.id = targetId then
                { s with
                  pixels := s.pixels ++ r.pixels
                  minX := min s.minX r.minX
                  minY := min s.minY r.minY
                  maxX := max s.maxX r.maxX
                  maxY := max s.maxY r.maxY }
              else s) := by
          intro s'
          rw [List.mem_filter, List.mem_map]
          constructor
          · rintro ⟨⟨s, hs, rfl⟩, hne⟩
            refine ⟨s, hs, ?_, rfl⟩
            by_cases hst : s.id = targetId
            · rw [if_pos hst] at hne
              simp only [bne_iff_ne, ne_eq] at hne
              simpa [hst] using hne
            · rw [if_neg hst] at hne
              simpa using hne
          · rintro ⟨s, hs, hne, rfl⟩
            refine ⟨⟨s, hs, rfl⟩, ?_⟩
            by_cases hst : s.id = targetId
            · rw [if_pos hst]
              simpa using hne
            · rw [if_neg hst]
              simpa using hne
        have hid' : ∀ s : Region, (if s.id = targetId then
            { s with
              pixels := s.pixels ++ r.pixels
              minX := min s.minX r.minX
              minY := min s.minY r.minY
              maxX := max s.maxX r.maxX
              maxY := max s.maxY r.maxY } else s).id = s.id := by
          intro s
          by_cases hst : s.id = targetId
          · rw [if_pos hst]
          · rw [if_neg hst]
        have hmap' : ∀ q, (r.pixels.foldl
            (fun m p => Function.update m p targetId) map) q =
            if q ∈ r.pixels then targetId else map q :=
          foldl_update_eq r.pixels targetId map
        refine ⟨?_, ?_, ?_, ?_, ?_⟩
        · -- I1: all in-range cells assigned
          intro q hq
          rw [hmap' q]
          by_cases hqp : q ∈ r.pixels
          · rw [if_pos hqp]
            exact htid0
          · rw [if_neg hqp]
            exact I1 q hq
        · -- I2: every assigned id is live
          intro q hq
          rw [hmap' q]
          by_cases hqp : q ∈ r.pixels
          · rw [if_pos hqp]
            refine ⟨(if t0.id = targetId then
              { t0 with
                pixels := t0.pixels ++ r.pixels
                minX := min t0.minX r.minX
                minY := min t0.minY r.minY
                maxX := max t0.maxX r.maxX
                maxY := max t0.maxY r.maxY } else t0), ?_, ?_⟩
            · rw [hmem']
              refine ⟨t0, ht0mem, ?_, rfl⟩
              rw [ht0id]
              exact htarget.1
            · rw [hid' t0, ht0id]
          · rw [if_neg hqp]
            obtain ⟨s, hs, hsid⟩ := I2 q hq
            have hsr : s.id ≠ r.id := by
              intro he
              have hqmap : map q = r.id := by rw [← hsid, he]
              exact hqp (I3 r hrmem q hq hqmap)
            refine ⟨(if s.id = targetId then
              { s with
                pixels := s.pixels ++ r.pixels
                minX := min s.minX r.minX
                minY := min s.minY r.minY
                maxX := max s.maxX r.maxX
                maxY := max s.maxY r.maxY } else s), ?_, ?_⟩
            · rw [hmem']
              exact ⟨s, hs, hsr, rfl⟩
            · rw [hid' s]
              exact hsid
        · -- I3: a live region's pixels cover its map cells
          intro s' hs' q hq hmapq
          rw [hmem'] at hs'
          obtain ⟨s, hs, hsr, rfl⟩ := hs'
          rw [hmap' q] at hmapq
          rw [hid' s] at hmapq
          by_cases hqp : q ∈ r.pixels
          · rw [if_pos hqp] at hmapq
            rw [if_pos hmapq.symm]
            simp only [List.mem_append]
            exact Or.inr hqp
          · rw [if_neg hqp] at hmapq
            have hqs : q ∈ s.pixels := I3 s hs q hq hmapq
            by_cases hst : s.id = targetId
            · rw [if_pos hst]
              simp only [List.mem_append]
              exact Or.inl hqs
            · rw [if_neg hst]
              exact hqs
        · -- I4: ids pairwise distinct
          have hids : (((regions.map fun s =>
              if s.id = targetId then
                { s with
                  pixels := s.pixels ++ r.pixels
                  minX := min s.minX r.minX
                  minY := min s.minY r.minY
                  maxX := max s.maxX r.maxX
                  maxY := max s.maxY r.maxY }
              else s).filter fun s => s.id != r.id).map Region.id).Sublist
              ((regions.map fun s =>
                if s.id = targetId then
                  { s with
                    pixels := s.pixels ++ r.pixels
                    minX := min s.minX r.minX
                    minY := min s.minY r.minY
                    maxX := max s.maxX r.maxX
                    maxY := max s.maxY r.maxY }
                else s).map Region.id) :=
            (List.filter_sublist _).map Region.id
          refine List.Nodup.sublist hids ?_
          have : ((regions.map fun s =>
              if s.id = targetId then
                { s with
                  pixels := s.pixels ++ r.pixels
                  minX := min s.minX r.minX
                  minY := min s.minY r.minY
                  maxX := max s.maxX r.maxX
                  maxY := max s.maxY r.maxY }
              else s).map Region.id) = regions.map Region.id := by
            rw [List.map_map]
            refine List.map_congr_left ?_
            intro s _
            exact hid' s
          rw [this]
          exact I4
        · -- I5: no live region has id 0
          intro s' hs'
          rw [hmem'] at hs'
          obtain ⟨s, hs, _, rfl⟩ := hs'
          rw [hid' s]
          exact I5 s hs

/-- C6: after every individual merge step of the RegionMerger, every
in-range RegionMap entry is nonzero and resolves to a region still
present in the table, that region's pixel list covers all cells
holding its id, and ids stay distinct and nonzero — merging
atomically reassigns all of the absorbed region's map entries to the
live target before deleting it, so no map entry ever references a
deleted region. -/
theorem mergeStep_preserves_liveness (n width height minRegionSize : ℕ)
    (thinT : ℚ) (colors : List RGB) (map : ℕ → ℕ) (regions : List Region)
    (rid : ℕ) (hinv : MergeInv n map regions) :
    MergeInv n
      (mergeStep n width height minRegionSize thinT colors (map, regions)
        rid).1
      (mergeStep n width height minRegionSize thinT colors (map, regions)
        rid).2 :=
  mergeStep_inv n width height minRegionSize thinT colors map regions rid hinv

/-- Witness for `mergeStep_preserves_liveness`: a 2-pixel raster whose
two one-pixel regions satisfy the invariant; region 1 is small and
merges into region 2. -/
theorem mergeStep_preserves_liveness_witness :
    MergeInv 2
      (mergeStep 2 2 1 5 3 [(0, 0, 0)]
        (fun q => if q = 0 then 1 else 2,
          [⟨1, [0], 0, 0, 0, 0, 0, 0, 0, 0⟩, ⟨2, [1], 0, 0, 0, 1, 0, 1, 0, 0⟩])
        1).1
      (mergeStep 2 2 1 5 3 [(0, 0, 0)]
        (fun q => if q = 0 then 1 else 2,
          [⟨1, [0], 0, 0, 0, 0, 0, 0, 0, 0⟩, ⟨2, [1], 0, 0, 0, 1, 0, 1, 0, 0⟩])
        1).2 :=
  mergeStep_preserves_liveness 2 2 1 5 3 [(0, 0, 0)] _ _ 1 (by decide)

/-! ### Steps 4-5 of `generatePbnImage` and the worker entry point
(worker.js lines 3-30, 46-56, 395-454) -/

/-- `getPixels(imageData)` (lines 46-56): the `[r, g, b]` triples of
the flat RGBA buffer, in raster order (the buffer has
`4 * width * height` cells). -/
def getPixels (width height : ℕ) (data : ℕ → ℕ) : List RGB :=
  (List.range (width * height)).map fun i =>
    (data (4 * i), data (4 * i + 1), data (4 * i + 2))

/-- The result of `generatePbnImage` as far as it is modelled: the
final RegionMap, the final region table, and the colored raster
(step 5), each cell an RGBA quadruple (cells never painted keep the
`ImageData` fill `(0,0,0,0)`, i.e. transparent).  The outline raster
of step 4 (lines 395-435) is drawn with OffscreenCanvas path/text
operations that throw for no input reaching them; it is outside the
model. -/
structure PbnResult where
  map : ℕ → ℕ
  regions : List Region
  colored : ℕ → ℕ × ℕ × ℕ × ℕ

/-- The DOMException thrown by `new ImageData(width, height)` when a
dimension is zero (line 438). -/
def imageDataZeroMsg : String :=
  "IndexSizeError: ImageData constructor given a zero source width or height"

/-- Step 5 (lines 437-448): paint every pixel whose RegionMap id is
positive and live with its region's assigned palette color, alpha 255.
`initialRegions[regionId].color[0]` throws when the region's color is
`undefined` (palette empty — modelled by an out-of-range index). -/
def paintLoop (map : ℕ → ℕ) (regions : List Region) (colors : List RGB) :
    List ℕ → (ℕ → ℕ × ℕ × ℕ × ℕ) → Except String (ℕ → ℕ × ℕ × ℕ × ℕ)
  | [], img => Except.ok img
  | i :: rest, img =>
    if 0 < map i then
      match findRegion regions (map i) with
      | some r =>
        match colors[r.color]? with
        | some c =>
          paintLoop map regions colors rest
            (Function.update img i (c.1, c.2.1, c.2.2, 255))
        | none => Except.error undefinedReadMsg
      | none => paintLoop map regions colors rest img
    else paintLoop map regions colors rest img

/-- See `paintLoop`: the output raster starts transparent black
(`new ImageData` fill) and is painted pixel by pixel in raster order. -/
def paintRegions (n : ℕ) (map : ℕ → ℕ) (regions : List Region)
    (colors : List RGB) : Except String (ℕ → ℕ × ℕ × ℕ × ℕ) :=
  paintLoop map regions colors (List.range n) (fun _ => (0, 0, 0, 0))

/-- `generatePbnImage(originalImageData, colors, options)`
(lines 277-454): flood fill, color assignment, merging, and the
colored output raster.  `new ImageData(width, height)` (line 438)
throws for a zero dimension before any painting happens. -/
def generatePbnImage (width height : ℕ) (data : ℕ → ℕ) (colors : List RGB)
    (colorThreshold : ℚ) (minRegionSize : ℕ) (thinT : ℚ) :
    Except String PbnResult :=
  let ff := floodFill width height data colorThreshold
  let regions₁ := assignColors ff.2.1 colors
  let merged := mergeRegions (width * height) width height minRegionSize
    thinT colors ff.1 regions₁
  if width = 0 ∨ height = 0 then Except.error imageDataZeroMsg
  else
    match paintRegions (width * height) merged.1 merged.2 colors with
    | Except.ok colored => Except.ok ⟨merged.1, merged.2, colored⟩
    | Except.error msg => Except.error msg

/-- The worker's response message: `postMessage({type: success, ...})`
on normal completion, `postMessage({type: error, message, stack})` for
any exception caught by the top-level try/catch (lines 3-30). -/
inductive WorkerResponse
  | success (dominantColors : List RGB) (results : PbnResult)
  | error (message : String)

/-- `self.onmessage` (lines 3-30): the full pipeline on one request —
sample, cluster with `initialK = min(k*5, 50)`, optimize the palette,
segment — wrapped in the catch-all that turns any thrown exception
into an error response.  There is NO input validation anywhere. -/
def onmessage (width height : ℕ) (data : ℕ → ℕ) (colorThreshold : ℚ)
    (minRegionSize : ℕ) (thinT : ℚ) (k : ℤ) (rand : ℕ → ℕ)
    (initFuel : ℕ) : WorkerResponse :=
  match kmeans (samplePixels (getPixels width height data) 30000)
      (min (k * 5) 50) rand initFuel with
  | Except.error msg => WorkerResponse.error msg
  | Except.ok kres =>
    match generatePbnImage width height data
        (generateOptimalPalette kres.1 kres.2 k) colorThreshold
        minRegionSize thinT with
    | Except.error msg => WorkerResponse.error msg
    | Except.ok results =>
      WorkerResponse.success (generateOptimalPalette kres.1 kres.2 k) results

lemma kmeansInit_nil (k : ℤ) (rand : ℕ → ℕ) :
    ∀ fuel, kmeansInit [] k rand fuel [] [] 0 = ([], 0) := by
  intro fuel
  cases fuel with
  | zero => rfl
  | succ fuel =>
    rw [kmeansInit]
    rw [if_neg]
    simp

lemma kmeansLoop_nil_ok (k : ℤ) (rand : ℕ → ℕ) :
    ∀ (fuel : ℕ) (centroids : List RGB) (t : ℕ),
      ∃ out, kmeansLoop [] k rand fuel centroids t = Except.ok out := by
  intro fuel
  induction fuel with
  | zero =>
    intro centroids t
    rw [kmeansLoop,
      show assignPixels [] centroids k.toNat =
        Except.ok (List.replicate k.toNat []) from rfl]
    dsimp only
    by_cases h : kmeansConverged centroids
        (newCentroidsOf [] (List.replicate k.toNat []) k.toNat rand t).1
        k.toNat
    · rw [if_pos h]
      exact ⟨_, rfl⟩
    · rw [if_neg h]
      exact ⟨_, rfl⟩
  | succ fuel ih =>
    intro centroids t
    rw [kmeansLoop,
      show assignPixels [] centroids k.toNat =
        Except.ok (List.replicate k.toNat []) from rfl]
    dsimp only
    by_cases h : kmeansConverged centroids
        (newCentroidsOf [] (List.replicate k.toNat []) k.toNat rand t).1
        k.toNat
    · rw [if_pos h]
      exact ⟨_, rfl⟩
    · rw [if_neg h]
      exact ih _ _

lemma kmeans_nil_ok (k : ℤ) (rand : ℕ → ℕ) (initFuel : ℕ) :
    ∃ out, kmeans [] k rand initFuel = Except.ok out := by
  unfold kmeans
  rw [kmeansInit_nil k rand initFuel]
  exact kmeansLoop_nil_ok k rand 29 [] 0

lemma generatePbnImage_zero_area (width height : ℕ) (data : ℕ → ℕ)
    (colors : List RGB) (ct : ℚ) (mrs : ℕ) (tt : ℚ)
    (h : width = 0 ∨ height = 0) :
    generatePbnImage width height data colors ct mrs tt =
      Except.error imageDataZeroMsg := by
  unfold generatePbnImage
  rw [if_pos h]

lemma kmeans_nonpos_k (pixels : List RGB) (k : ℤ) (rand : ℕ → ℕ)
    (initFuel : ℕ) (hne : pixels ≠ []) (hk : k ≤ 0) :
    kmeans pixels k rand initFuel = Except.error undefinedReadMsg := by
  unfold kmeans
  have hinit : kmeansInit pixels k rand initFuel [] [] 0 = ([], 0) := by
    cases initFuel with
    | zero => rfl
    | succ fuel =>
      rw [kmeansInit]
      rw [if_neg]
      intro hcon
      have := hcon.1
      simp at this
      omega
  rw [hinit]
  dsimp only
  have hassign : assignPixels pixels [] k.toNat =
      Except.error undefinedReadMsg := by
    have hk0 : k.toNat = 0 := by omega
    rw [hk0]
    cases pixels with
    | nil => exact absurd rfl hne
    | cons p rest => rfl
  rw [kmeansLoop, hassign]

/-- C8: there is no input validation in the worker.  A zero-area
raster runs the ENTIRE pipeline (sampling, 30 k-means iterations,
palette optimization, segmentation) and only fails at the very end,
constructing the zero-size output `ImageData` (line 438), surfacing
that DOMException's message; a request with `k < 1` crashes inside
k-means with a generic TypeError (`clusters[0].push` on `undefined`).
Both are caught by the top-level handler and returned as error
responses — so malformed input never yields a success response, but
the failure is neither fast nor a descriptive validation message. -/
theorem onmessage_malformed_input (width height : ℕ) (data : ℕ → ℕ)
    (ct : ℚ) (mrs : ℕ) (tt : ℚ) (k : ℤ) (rand : ℕ → ℕ) (initFuel : ℕ) :
    (width * height = 0 →
      onmessage width height data ct mrs tt k rand initFuel =
        WorkerResponse.error imageDataZeroMsg) ∧
    (0 < width * height → k < 1 →
      onmessage width height data ct mrs tt k rand initFuel =
        WorkerResponse.error undefinedReadMsg) := by
  constructor
  · intro h0
    unfold onmessage
    have hpix : getPixels width height data = [] := by
      unfold getPixels
      rw [h0]
      rfl
    rw [hpix, show samplePixels ([] : List RGB) 30000 = [] from rfl]
    obtain ⟨out, hout⟩ := kmeans_nil_ok (min (k * 5) 50) rand initFuel
    rw [hout]
    dsimp only
    rw [generatePbnImage_zero_area width height data _ ct mrs tt
      (by rcases Nat.mul_eq_zero.1 h0 with h | h
          · exact Or.inl h
          · exact Or.inr h)]
  · intro hpos hk
    unfold onmessage
    have hne : getPixels width height data ≠ [] := by
      unfold getPixels
      intro h
      have hl := congrArg List.length h
      rw [List.length_map, List.length_range, List.length_nil] at hl
      omega
    rw [kmeans_nonpos_k _ (min (k * 5) 50) rand initFuel
      (samplePixels_ne_nil _ 30000 hne)
      (le_trans (min_le_left _ _) (by omega : k * 5 ≤ 0))]

/-! ### C10: the colored output raster is fully painted and opaque -/

lemma mem_assignColors (regions : List Region) (colors : List RGB)
    (r' : Region) :
    r' ∈ assignColors regions colors ↔
      ∃ r ∈ regions, 0 < r.pixels.length ∧
        r' = { r with color :=
          findClosestColor r.sumR r.sumG r.sumB r.pixels.length colors } := by
  unfold assignColors
  rw [List.mem_filterMap]
  constructor
  · rintro ⟨r, hr, hopt⟩
    by_cases hp : 0 < r.pixels.length
    · rw [if_pos hp] at hopt
      cases hopt
      exact ⟨r, hr, hp, rfl⟩
    · rw [if_neg hp] at hopt
      cases hopt
  · rintro ⟨r, hr, hp, rfl⟩
    exact ⟨r, hr, by rw [if_pos hp]⟩

lemma assignColors_ids_sublist (regions : List Region) (colors : List RGB) :
    ((assignColors regions colors).map Region.id).Sublist
      (regions.map Region.id) := by
  induction regions with
  | nil => simp [assignColors]
  | cons r rest ih =>
    unfold assignColors at ih ⊢
    rw [List.filterMap_cons]
    by_cases hp : 0 < r.pixels.length
    · rw [if_pos hp]
      simp only [List.map_cons]
      exact ih.cons₂ r.id
    · rw [if_neg hp]
      simp only [List.map_cons]
      exact ih.cons r.id

lemma assignColors_inv (n : ℕ) (map : ℕ → ℕ) (regions : List Region)
    (colors : List RGB)
    (J1 : ∀ p, p < n → map p ≠ 0)
    (J3 : ∀ r ∈ regions, ∀ q, q < n → (map q = r.id ↔ q ∈ r.pixels))
    (J5 : ∀ r ∈ regions, 0 < r.id)
    (J6 : (regions.map Region.id).Nodup)
    (J7 : ∀ q, q < n → map q ≠ 0 → ∃ r ∈ regions, r.id = map q) :
    MergeInv n map (assignColors regions colors) := by
  refine ⟨J1, ?_, ?_, ?_, ?_⟩
  · intro q hq
    obtain ⟨r, hr, hid⟩ := J7 q hq (J1 q hq)
    have hqpix : q ∈ r.pixels := (J3 r hr q hq).1 hid.symm
    have hlen : 0 < r.pixels.length := List.length_pos.2 fun he => by
      rw [he] at hqpix
      exact (List.not_mem_nil q) hqpix
    refine ⟨{ r with color :=
      findClosestColor r.sumR r.sumG r.sumB r.pixels.length colors }, ?_, hid⟩
    rw [mem_assignColors]
    exact ⟨r, hr, hlen, rfl⟩
  · intro r' hr' q hq hmapq
    rw [mem_assignColors] at hr'
    obtain ⟨r, hr, hlen, rfl⟩ := hr'
    exact (J3 r hr q hq).1 hmapq
  · exact (assignColors_ids_sublist regions colors).nodup J6
  · intro r' hr'
    rw [mem_assignColors] at hr'
    obtain ⟨r, hr, hlen, rfl⟩ := hr'
    have := J5 r hr
    show r.id ≠ 0
    omega

lemma assignColors_colorBound (regions : List Region) (colors : List RGB)
    (hc : colors ≠ []) :
    ∀ r' ∈ assignColors regions colors, r'.color < colors.length := by
  intro r' hr'
  rw [mem_assignColors] at hr'
  obtain ⟨r, hr, hlen, rfl⟩ := hr'
  exact findClosestColor_lt r.sumR r.sumG r.sumB r.pixels.length colors hc

lemma mergeStep_colorBound (n width height minRegionSize : ℕ) (thinT : ℚ)
    (colors : List RGB) (map : ℕ → ℕ) (regions : List Region) (rid : ℕ)
    (L : ℕ) (hcol : ∀ r ∈ regions, r.color < L) :
    ∀ r' ∈ (mergeStep n width height minRegionSize thinT colors
      (map, regions) rid).2, r'.color < L := by
  intro r' hr'
  unfold mergeStep at hr'
  cases hfr : findRegion regions rid with
  | none =>
    rw [hfr] at hr'
    exact hcol r' hr'
  | some r =>
    rw [hfr] at hr'
    dsimp only at hr'
    by_cases hcand : ¬ (isSmall r minRegionSize ||
        isThin r width height thinT)
    · rw [if_pos hcand] at hr'
      exact hcol r' hr'
    · rw [if_neg hcand] at hr'
      cases hbest : bestNeighborLoop regions colors r.color
          (neighborIdsOf n width map regions r) none none with
      | none =>
        rw [hbest] at hr'
        exact hcol r' hr'
      | some targetId =>
        rw [hbest] at hr'
        dsimp only at hr'
        unfold applyMerge at hr'
        dsimp only at hr'
        rw [List.mem_filter] at hr'
        rcases List.mem_map.1 hr'.1 with ⟨s, hs, rfl⟩
        by_cases hst : s.id = targetId
        · rw [if_pos hst]
          exact hcol s hs
        · rw [if_neg hst]
          exact hcol s hs

lemma mergeFold_inv (n width height minRegionSize : ℕ) (thinT : ℚ)
    (colors : List RGB) (ids : List ℕ) :
    ∀ (st : (ℕ → ℕ) × List Region),
      MergeInv n st.1 st.2 → (∀ r ∈ st.2, r.color < colors.length) →
      MergeInv n
        (ids.foldl (mergeStep n width height minRegionSize thinT colors)
          st).1
        (ids.foldl (mergeStep n width height minRegionSize thinT colors)
          st).2 ∧
      ∀ r ∈ (ids.foldl (mergeStep n width height minRegionSize thinT colors)
          st).2, r.color < colors.length := by
  induction ids with
  | nil => intro st h1 h2; exact ⟨h1, h2⟩
  | cons rid rest ih =>
    intro st h1 h2
    rw [List.foldl_cons]
    exact ih _ (mergeStep_inv n width height minRegionSize thinT colors
        st.1 st.2 rid h1)
      (mergeStep_colorBound n width height minRegionSize thinT colors
        st.1 st.2 rid colors.length h2)

lemma paintLoop_ok (map : ℕ → ℕ) (regions : List Region)
    (colors : List RGB)
    (hcol : ∀ r ∈ regions, r.color < colors.length) :
    ∀ (l : List ℕ) (img : ℕ → ℕ × ℕ × ℕ × ℕ),
      (∀ i ∈ l, 0 < map i ∧ ∃ r ∈ regions, r.id = map i) →
      ∃ img', paintLoop map regions colors l img = Except.ok img' ∧
        (∀ j, img' j = img j ∨
          ∃ r c, findRegion regions (map j) = some r ∧
            colors[r.color]? = some c ∧ img' j = (c.1, c.2.1, c.2.2, 255)) ∧
        (∀ i ∈ l, ∃ r c, findRegion regions (map i) = some r ∧
          colors[r.color]? = some c ∧ img' i = (c.1, c.2.1, c.2.2, 255)) := by
  intro l
  induction l with
  | nil =>
    intro img _
    exact ⟨img, rfl, fun j => Or.inl rfl, fun i hi => absurd hi
      (List.not_mem_nil i)⟩
  | cons i rest ih =>
    intro img hl
    obtain ⟨hpos, r, hr, hid⟩ := hl i (List.mem_cons_self i rest)
    have hsome : (findRegion regions (map i)).isSome := by
      unfold findRegion
      rw [List.find?_isSome]
      exact ⟨r, hr, by simp [hid]⟩
    cases hfr : findRegion regions (map i) with
    | none => rw [hfr] at hsome; cases hsome
    | some r₀ =>
      obtain ⟨hr₀mem, hr₀id⟩ := findRegion_some regions (map i) r₀ hfr
      have hcb : r₀.color < colors.length := hcol r₀ hr₀mem
      have hget : colors[r₀.color]? = some colors[r₀.color] :=
        List.getElem?_eq_getElem hcb
      rw [paintLoop]
      rw [if_pos hpos, hfr]
      dsimp only
      rw [hget]
      dsimp only
      obtain ⟨img', himg', hframe, hgood⟩ :=
        ih (Function.update img i
          (colors[r₀.color].1, colors[r₀.color].2.1, colors[r₀.color].2.2,
            255))
          (fun j hj => hl j (List.mem_cons_of_mem i hj))
      refine ⟨img', himg', ?_, ?_⟩
      · intro j
        rcases hframe j with h | h
        · by_cases hji : j = i
          · subst hji
            rw [h, Function.update_same]
            exact Or.inr ⟨r₀, colors[r₀.color], hfr, hget, rfl⟩
          · rw [h, Function.update_noteq hji]
            exact Or.inl rfl
        · exact Or.inr h
      · intro j hj
        rcases List.mem_cons.1 hj with rfl | hj'
        · rcases hframe j with h | h
          · rw [h, Function.update_same]
            exact ⟨r₀, colors[r₀.color], hfr, hget, rfl⟩
          · exact h
        · exact hgood j hj'

/-- C10: for a nonempty raster and a nonempty palette, `generatePbnImage`
succeeds and its colored output raster is fully painted and fully
opaque — every pixel holds the assigned palette color of its own final
region (the region of the output RegionMap entry, looked up in the
output region table; `c` is that region's `color` palette entry) with
alpha 255; no pixel is left transparent.  This rests on the flood fill
assigning every pixel a nonzero live region id and on merging always
reassigning absorbed pixels to a live region. -/
theorem generatePbnImage_fully_painted (width height : ℕ) (data : ℕ → ℕ)
    (colors : List RGB) (ct : ℚ) (mrs : ℕ) (tt : ℚ)
    (hpos : 0 < width * height) (hc : colors ≠ []) :
    ∃ res, generatePbnImage width height data colors ct mrs tt =
        Except.ok res ∧
      ∀ i, i < width * height →
        ∃ r c, findRegion res.regions (res.map i) = some r ∧
          colors[r.color]? = some c ∧
          res.colored i = (c.1, c.2.1, c.2.2, 255) := by
  obtain ⟨J1, J2, J3, J4, J5, J6, J7, J8, J9⟩ :=
    floodFill_inv width height data ct (width * height) (le_refl _)
  have hff : floodFill width height data ct =
      (List.range (width * height)).foldl
        (floodFillStep width height data ct) (fun _ => 0, [], 1) := rfl
  set ff := floodFill width height data ct with hffdef
  rw [← hff] at J1 J2 J3 J4 J5 J6 J7 J8 J9
  have hinv₁ : MergeInv (width * height) ff.1
      (assignColors ff.2.1 colors) :=
    assignColors_inv (width * height) ff.1 ff.2.1 colors J1 J3
      (fun r hr => (J5 r hr).1) J6 J7
  have hcol₁ : ∀ r ∈ assignColors ff.2.1 colors, r.color < colors.length :=
    assignColors_colorBound ff.2.1 colors hc
  obtain ⟨hinv₂, hcol₂⟩ :=
    mergeFold_inv (width * height) width height mrs tt colors
      (sortedRegionIds (assignColors ff.2.1 colors))
      (ff.1, assignColors ff.2.1 colors) hinv₁ hcol₁
  obtain ⟨I1, I2, I3, I4, I5⟩ := hinv₂
  obtain ⟨img, himg, hframe, hgood⟩ :=
    paintLoop_ok _ _ colors hcol₂ (List.range (width * height))
      (fun _ => (0, 0, 0, 0))
      (by
        intro i hi
        have hi' : i < width * height := List.mem_range.1 hi
        exact ⟨Nat.pos_of_ne_zero (I1 i hi'), I2 i hi'⟩)
  refine ⟨⟨(mergeRegions (width * height) width height mrs tt colors ff.1
      (assignColors ff.2.1 colors)).1,
    (mergeRegions (width * height) width height mrs tt colors ff.1
      (assignColors ff.2.1 colors)).2, img⟩, ?_, ?_⟩
  · unfold generatePbnImage
    rw [← hffdef]
    rw [if_neg (by
      rintro (h | h) <;> rw [h] at hpos <;> simp at hpos)]
    have hpaint : paintRegions (width * height)
        (mergeRegions (width * height) width height mrs tt colors ff.1
          (assignColors ff.2.1 colors)).1
        (mergeRegions (width * height) width height mrs tt colors ff.1
          (assignColors ff.2.1 colors)).2 colors = Except.ok img := by
      unfold paintRegions
      unfold mergeRegions
      exact himg
    rw [hpaint]
  · intro i hi
    exact hgood i (List.mem_range.2 hi)

/-- Witness for `generatePbnImage_fully_painted`: a 1x1 raster and a
one-color palette. -/
theorem generatePbnImage_fully_painted_witness :
    ∃ res, generatePbnImage 1 1 (fun _ => 0) [(7, 8, 9)] 10 2 3 =
        Except.ok res ∧
      ∀ i, i < 1 * 1 →
        ∃ r c, findRegion res.regions (res.map i) = some r ∧
          ([(7, 8, 9)] : List RGB)[r.color]? = some c ∧
          res.colored i = (c.1, c.2.1, c.2.2, 255) :=
  generatePbnImage_fully_painted 1 1 (fun _ => 0) [(7, 8, 9)] 10 2 3
    (by decide) (by decide)

/-! ### LabelPlacer (worker.js lines 234-267)

`findBestLabelPosition` repeatedly erodes the region's pixel set:
each pass (lines 240-249) marks every pixel one of whose four
neighbors `p - 1`, `p + 1`, `p - width`, `p + width` (line 242) is
absent, stops when a pass would remove everything (line 250), and
otherwise removes the marked pixels (lines 251-255); the label
position is the rounded mean of the coordinates of the last
non-eroded layer (lines 261-266).  JS `Set`s of pixel indices become
`Finset ℤ` — indices are plain numbers with no bounds or row checks,
and `p - width` may be negative.  The unbounded `while` becomes fuel;
each non-final pass removes at least one pixel, so `card + 1` units
of fuel are enough to reach the break. -/

/-- Lines 240-249: the pixels of `s` having at least one of their four
raster neighbors outside `s`. -/
def boundaryPixels (s : Finset ℤ) (W : ℕ) : Finset ℤ :=
  s.filter fun p =>
    p - 1 ∉ s ∨ p + 1 ∉ s ∨ p - (W : ℤ) ∉ s ∨ p + (W : ℤ) ∉ s

/-- Lines 238-256: the erosion loop.  `last` is the JS `lastPixels`
variable (initially the empty array); the loop captures `current`
into `last`, breaks — returning the captured set — when the boundary
is everything, and otherwise continues on the interior. -/
def erodeLoop (W : ℕ) : ℕ → Finset ℤ → Finset ℤ → Finset ℤ
  | 0, _, last => last
  | fuel + 1, current, last =>
    if current = ∅ then last
    else if (boundaryPixels current W).card = current.card then current
    else erodeLoop W fuel (current \ boundaryPixels current W) current

/-- Lines 234-267: `findBestLabelPosition(region, width)`, taking the
region's pixel index list.  An empty region returns `(-1, -1)`
(line 235); an empty final layer falls back to the first pixel's
coordinates (lines 257-260, unreachable for a nonempty region); the
label is `Math.round` of the mean column and mean row of the final
layer (lines 261-266). -/
def findBestLabelPosition (regionPixels : List ℕ) (W : ℕ) : ℤ × ℤ :=
  match regionPixels with
  | [] => (-1, -1)
  | p₀ :: tl =>
    let current := ((p₀ :: tl).map Int.ofNat).toFinset
    let last := erodeLoop W (current.card + 1) current ∅
    if last = ∅ then
      (((p₀ % W : ℕ) : ℤ), ((p₀ / W : ℕ) : ℤ))
    else
      (jsRound ((((last.sum fun p => p % (W : ℤ)) : ℤ) : ℚ) / (last.card : ℚ)),
       jsRound ((((last.sum fun p => p / (W : ℤ)) : ℤ) : ℚ) / (last.card : ℚ)))

/-- The pixel-index set of the solid axis-aligned rectangle with top-left
corner `(x0, y0)` and dimensions `w × h` inside a raster of width `W`. -/
def rectFinset (W x0 y0 w h : ℕ) : Finset ℤ :=
  (Finset.range w ×ˢ Finset.range h).image
    fun q => (((y0 + q.2) * W + (x0 + q.1) : ℕ) : ℤ)

lemma rect_decomp {W : ℕ} {a b x y : ℤ}
    (hx0 : 0 ≤ x) (hxW : x < (W : ℤ)) (hy0 : 0 ≤ y) (hyW : y < (W : ℤ))
    (heq : a * (W : ℤ) + x = b * (W : ℤ) + y) : a = b ∧ x = y := by
  have hxm : x % (W : ℤ) = x := Int.emod_eq_of_lt hx0 hxW
  have hym : y % (W : ℤ) = y := Int.emod_eq_of_lt hy0 hyW
  have hmod : x = y := by
    have h := congrArg (fun z => z % (W : ℤ)) heq
    simp only at h
    rw [add_comm (a * (W : ℤ)) x, add_comm (b * (W : ℤ)) y,
        Int.add_mul_emod_self, Int.add_mul_emod_self, hxm, hym] at h
    exact h
  have hW0 : (W : ℤ) ≠ 0 := by omega
  refine ⟨mul_right_cancel₀ hW0 (by linarith), hmod⟩

lemma mem_rectFinset {W x0 y0 w h : ℕ} {q : ℤ} :
    q ∈ rectFinset W x0 y0 w h ↔
      ∃ i j : ℕ, i < w ∧ j < h ∧
        q = (((y0 + j) * W + (x0 + i) : ℕ) : ℤ) := by
  unfold rectFinset
  simp only [Finset.mem_image, Finset.mem_product, Finset.mem_range]
  constructor
  · rintro ⟨⟨i, j⟩, ⟨hi, hj⟩, rfl⟩
    exact ⟨i, j, hi, hj, rfl⟩
  · rintro ⟨i, j, hi, hj, rfl⟩
    exact ⟨(i, j), ⟨hi, hj⟩, rfl⟩

lemma mem_rectFinset_iff {W x0 y0 w h : ℕ} {q : ℤ} :
    q ∈ rectFinset W x0 y0 w h ↔
      ∃ a b : ℤ, (x0 : ℤ) ≤ a ∧ a < (x0 : ℤ) + w ∧ (y0 : ℤ) ≤ b ∧
        b < (y0 : ℤ) + h ∧ q = b * W + a := by
  rw [mem_rectFinset]
  constructor
  · rintro ⟨i, j, hi, hj, rfl⟩
    refine ⟨(x0 : ℤ) + i, (y0 : ℤ) + j, by omega, by omega, by omega, by omega, ?_⟩
    push_cast
    ring
  · rintro ⟨a, b, ha1, ha2, hb1, hb2, rfl⟩
    refine ⟨(a - x0).toNat, (b - y0).toNat, by omega, by omega, ?_⟩
    have h1 : (((a - (x0 : ℤ)).toNat : ℤ)) = a - x0 := Int.toNat_of_nonneg (by omega)
    have h2 : (((b - (y0 : ℤ)).toNat : ℤ)) = b - y0 := Int.toNat_of_nonneg (by omega)
    push_cast [h1, h2]
    ring

lemma rect_nonempty (W x0 y0 w h : ℕ) (hw : 0 < w) (hh : 0 < h) :
    rectFinset W x0 y0 w h ≠ ∅ := by
  intro hemp
  have hm : (((y0 + 0) * W + (x0 + 0) : ℕ) : ℤ) ∈ rectFinset W x0 y0 w h :=
    mem_rectFinset.mpr ⟨0, 0, hw, hh, rfl⟩
  rw [hemp] at hm
  exact absurd hm (Finset.not_mem_empty _)

lemma rect_empty_left (W x0 y0 h : ℕ) : rectFinset W x0 y0 0 h = ∅ := by
  unfold rectFinset
  simp

lemma rect_empty_right (W x0 y0 w : ℕ) : rectFinset W x0 y0 w 0 = ∅ := by
  unfold rectFinset
  simp

lemma rect_card (W x0 y0 w h : ℕ) (hWw : x0 + w ≤ W) :
    (rectFinset W x0 y0 w h).card = w * h := by
  unfold rectFinset
  have hinj : Set.InjOn (fun q : ℕ × ℕ => (((y0 + q.2) * W + (x0 + q.1) : ℕ) : ℤ))
      ↑(Finset.range w ×ˢ Finset.range h) := by
    intro p hp q hq hpq
    simp only [Finset.coe_product, Set.mem_prod, Finset.mem_coe, Finset.mem_range] at hp hq
    have h2 : ((y0 : ℤ) + p.2) * W + ((x0 : ℤ) + p.1) =
        ((y0 : ℤ) + q.2) * W + ((x0 : ℤ) + q.1) := by
      simp only at hpq
      push_cast at hpq
      linarith
    obtain ⟨hy, hx⟩ := rect_decomp (by omega) (by omega) (by omega) (by omega) h2
    obtain ⟨p1, p2⟩ := p
    obtain ⟨q1, q2⟩ := q
    simp only [Prod.mk.injEq]
    constructor <;> omega
  rw [Finset.card_image_of_injOn hinj, Finset.card_product,
      Finset.card_range, Finset.card_range]

lemma rect_mem_add_W {W x0 y0 w h : ℕ} {a b : ℤ} (hWw : x0 + w ≤ W)
    (ha1 : (x0 : ℤ) ≤ a) (ha2 : a < (x0 : ℤ) + w)
    (hb1 : (y0 : ℤ) ≤ b) (hb2 : b < (y0 : ℤ) + h) :
    (b * W + a) + W ∈ rectFinset W x0 y0 w h ↔ b + 1 < (y0 : ℤ) + h := by
  have hWwZ : (x0 : ℤ) + w ≤ W := by exact_mod_cast hWw
  constructor
  · intro hmem
    obtain ⟨a2, b2, ha1b, ha2b, hb1b, hb2b, heq⟩ := mem_rectFinset_iff.mp hmem
    have heq2 : (b + 1) * (W : ℤ) + a = b2 * W + a2 := by linear_combination heq
    obtain ⟨hbe, hae⟩ := rect_decomp (by omega) (by omega) (by omega) (by omega) heq2
    omega
  · intro hlt
    exact mem_rectFinset_iff.mpr ⟨a, b + 1, ha1, ha2, by omega, hlt, by ring⟩

lemma rect_mem_sub_W {W x0 y0 w h : ℕ} {a b : ℤ} (hWw : x0 + w ≤ W)
    (ha1 : (x0 : ℤ) ≤ a) (ha2 : a < (x0 : ℤ) + w)
    (hb1 : (y0 : ℤ) ≤ b) (hb2 : b < (y0 : ℤ) + h) :
    (b * W + a) - W ∈ rectFinset W x0 y0 w h ↔ (y0 : ℤ) + 1 ≤ b := by
  have hWwZ : (x0 : ℤ) + w ≤ W := by exact_mod_cast hWw
  constructor
  · intro hmem
    obtain ⟨a2, b2, ha1b, ha2b, hb1b, hb2b, heq⟩ := mem_rectFinset_iff.mp hmem
    have heq2 : (b - 1) * (W : ℤ) + a = b2 * W + a2 := by linear_combination heq
    obtain ⟨hbe, hae⟩ := rect_decomp (by omega) (by omega) (by omega) (by omega) heq2
    omega
  · intro hle
    exact mem_rectFinset_iff.mpr ⟨a, b - 1, ha1, ha2, by omega, by omega, by ring⟩

lemma rect_mem_add_one {W x0 y0 w h : ℕ} {a b : ℤ} (hWw : x0 + w ≤ W)
    (ha1 : (x0 : ℤ) ≤ a) (ha2 : a < (x0 : ℤ) + w)
    (hb1 : (y0 : ℤ) ≤ b) (hb2 : b < (y0 : ℤ) + h) :
    (b * W + a) + 1 ∈ rectFinset W x0 y0 w h ↔
      (a + 1 < (x0 : ℤ) + w ∨ (w = W ∧ b + 1 < (y0 : ℤ) + h)) := by
  have hWwZ : (x0 : ℤ) + w ≤ W := by exact_mod_cast hWw
  constructor
  · intro hmem
    obtain ⟨a2, b2, ha1b, ha2b, hb1b, hb2b, heq⟩ := mem_rectFinset_iff.mp hmem
    rcases lt_or_eq_of_le (show a + 1 ≤ (W : ℤ) by omega) with hlt | heqW
    · have heq2 : b * (W : ℤ) + (a + 1) = b2 * W + a2 := by linear_combination heq
      obtain ⟨hbe, hae⟩ := rect_decomp (by omega) hlt (by omega) (by omega) heq2
      left
      omega
    · have heq2 : (b + 1) * (W : ℤ) + 0 = b2 * W + a2 := by
        linear_combination heq - heqW
      obtain ⟨hbe, hae⟩ := rect_decomp (by omega) (by omega) (by omega) (by omega) heq2
      right
      exact ⟨by omega, by omega⟩
  · intro hor
    rcases hor with hlt | ⟨hwW, hblt⟩
    · exact mem_rectFinset_iff.mpr ⟨a + 1, b, by omega, hlt, hb1, hb2, by ring⟩
    · rcases lt_or_eq_of_le (show a + 1 ≤ (W : ℤ) by omega) with hlt | heqW
      · exact mem_rectFinset_iff.mpr ⟨a + 1, b, by omega, by omega, hb1, hb2, by ring⟩
      · exact mem_rectFinset_iff.mpr
          ⟨0, b + 1, by omega, by omega, by omega, hblt, by linear_combination heqW⟩

lemma rect_mem_sub_one {W x0 y0 w h : ℕ} {a b : ℤ} (hWw : x0 + w ≤ W)
    (ha1 : (x0 : ℤ) ≤ a) (ha2 : a < (x0 : ℤ) + w)
    (hb1 : (y0 : ℤ) ≤ b) (hb2 : b < (y0 : ℤ) + h) :
    (b * W + a) - 1 ∈ rectFinset W x0 y0 w h ↔
      ((x0 : ℤ) + 1 ≤ a ∨ (w = W ∧ (y0 : ℤ) + 1 ≤ b)) := by
  have hWwZ : (x0 : ℤ) + w ≤ W := by exact_mod_cast hWw
  constructor
  · intro hmem
    obtain ⟨a2, b2, ha1b, ha2b, hb1b, hb2b, heq⟩ := mem_rectFinset_iff.mp hmem
    rcases eq_or_lt_of_le (show (0 : ℤ) ≤ a by omega) with heq0 | hpos
    · have heq2 : (b - 1) * (W : ℤ) + ((W : ℤ) - 1) = b2 * W + a2 := by
        linear_combination heq + heq0
      obtain ⟨hbe, hae⟩ := rect_decomp (by omega) (by omega) (by omega) (by omega) heq2
      right
      exact ⟨by omega, by omega⟩
    · have heq2 : b * (W : ℤ) + (a - 1) = b2 * W + a2 := by linear_combination heq
      obtain ⟨hbe, hae⟩ := rect_decomp (by omega) (by omega) (by omega) (by omega) heq2
      left
      omega
  · intro hor
    rcases hor with hge | ⟨hwW, hbge⟩
    · exact mem_rectFinset_iff.mpr ⟨a - 1, b, by omega, by omega, hb1, hb2, by ring⟩
    · rcases eq_or_lt_of_le (show (0 : ℤ) ≤ a by omega) with heq0 | hpos
      · exact mem_rectFinset_iff.mpr
          ⟨(W : ℤ) - 1, b - 1, by omega, by omega, by omega, by omega,
            by linear_combination -heq0⟩
      · exact mem_rectFinset_iff.mpr ⟨a - 1, b, by omega, by omega, hb1, hb2, by ring⟩

lemma erode_rect_of_ne (W x0 y0 w h : ℕ) (hWw : x0 + w ≤ W) (hwW : w ≠ W) :
    rectFinset W x0 y0 w h \ boundaryPixels (rectFinset W x0 y0 w h) W =
      rectFinset W (x0 + 1) (y0 + 1) (w - 2) (h - 2) := by
  ext q
  simp only [Finset.mem_sdiff, boundaryPixels, Finset.mem_filter, not_and, not_or,
    not_not]
  constructor
  · rintro ⟨hq, hnb⟩
    obtain ⟨hq1, hq2, hq3, hq4⟩ := hnb hq
    obtain ⟨a, b, ha1, ha2, hb1, hb2, rfl⟩ := mem_rectFinset_iff.mp hq
    rw [rect_mem_sub_one hWw ha1 ha2 hb1 hb2] at hq1
    rw [rect_mem_add_one hWw ha1 ha2 hb1 hb2] at hq2
    rw [rect_mem_sub_W hWw ha1 ha2 hb1 hb2] at hq3
    rw [rect_mem_add_W hWw ha1 ha2 hb1 hb2] at hq4
    have hx1 : (x0 : ℤ) + 1 ≤ a := hq1.resolve_right (fun hc => hwW hc.1)
    have hx2 : a + 1 < (x0 : ℤ) + w := hq2.resolve_right (fun hc => hwW hc.1)
    exact mem_rectFinset_iff.mpr ⟨a, b, by omega, by omega, by omega, by omega, rfl⟩
  · intro hq
    obtain ⟨a, b, ha1, ha2, hb1, hb2, rfl⟩ := mem_rectFinset_iff.mp hq
    have ha1o : (x0 : ℤ) ≤ a := by omega
    have ha2o : a < (x0 : ℤ) + w := by omega
    have hb1o : (y0 : ℤ) ≤ b := by omega
    have hb2o : b < (y0 : ℤ) + h := by omega
    have hqmem : b * (W : ℤ) + a ∈ rectFinset W x0 y0 w h :=
      mem_rectFinset_iff.mpr ⟨a, b, ha1o, ha2o, hb1o, hb2o, rfl⟩
    refine ⟨hqmem, fun _ => ⟨?_, ?_, ?_, ?_⟩⟩
    · exact (rect_mem_sub_one hWw ha1o ha2o hb1o hb2o).mpr (Or.inl (by omega))
    · exact (rect_mem_add_one hWw ha1o ha2o hb1o hb2o).mpr (Or.inl (by omega))
    · exact (rect_mem_sub_W hWw ha1o ha2o hb1o hb2o).mpr (by omega)
    · exact (rect_mem_add_W hWw ha1o ha2o hb1o hb2o).mpr (by omega)

lemma erode_rect_of_eq (W y0 h : ℕ) :
    rectFinset W 0 y0 W h \ boundaryPixels (rectFinset W 0 y0 W h) W =
      rectFinset W 0 (y0 + 1) W (h - 2) := by
  have hWw : 0 + W ≤ W := by omega
  ext q
  simp only [Finset.mem_sdiff, boundaryPixels, Finset.mem_filter, not_and, not_or,
    not_not]
  constructor
  · rintro ⟨hq, hnb⟩
    obtain ⟨hq1, hq2, hq3, hq4⟩ := hnb hq
    obtain ⟨a, b, ha1, ha2, hb1, hb2, rfl⟩ := mem_rectFinset_iff.mp hq
    rw [rect_mem_sub_W hWw ha1 ha2 hb1 hb2] at hq3
    rw [rect_mem_add_W hWw ha1 ha2 hb1 hb2] at hq4
    exact mem_rectFinset_iff.mpr ⟨a, b, ha1, by omega, by omega, by omega, rfl⟩
  · intro hq
    obtain ⟨a, b, ha1, ha2, hb1, hb2, rfl⟩ := mem_rectFinset_iff.mp hq
    have ha2o : a < ((0 : ℕ) : ℤ) + W := by omega
    have hb1o : ((y0 : ℕ) : ℤ) ≤ b := by omega
    have hb2o : b < (y0 : ℤ) + h := by omega
    have hqmem : b * (W : ℤ) + a ∈ rectFinset W 0 y0 W h :=
      mem_rectFinset_iff.mpr ⟨a, b, ha1, ha2o, hb1o, hb2o, rfl⟩
    refine ⟨hqmem, fun _ => ⟨?_, ?_, ?_, ?_⟩⟩
    · exact (rect_mem_sub_one hWw ha1 ha2o hb1o hb2o).mpr (Or.inr ⟨rfl, by omega⟩)
    · exact (rect_mem_add_one hWw ha1 ha2o hb1o hb2o).mpr (Or.inr ⟨rfl, by omega⟩)
    · exact (rect_mem_sub_W hWw ha1 ha2o hb1o hb2o).mpr (by omega)
    · exact (rect_mem_add_W hWw ha1 ha2o hb1o hb2o).mpr (by omega)

lemma erodeLoop_rect (W : ℕ) :
    ∀ fuel : ℕ, ∀ w h x0 y0 : ℕ, ∀ last : Finset ℤ,
      w % 2 = 1 → h % 2 = 1 → x0 + w ≤ W → h ≤ 2 * fuel →
      ∃ w2 h2 x2 y2 : ℕ,
        erodeLoop W fuel (rectFinset W x0 y0 w h) last = rectFinset W x2 y2 w2 h2 ∧
        w2 % 2 = 1 ∧ h2 % 2 = 1 ∧ x2 + w2 ≤ W ∧
        2 * x2 + w2 = 2 * x0 + w ∧ 2 * y2 + h2 = 2 * y0 + h := by
  intro fuel
  induction fuel with
  | zero =>
    intro w h x0 y0 last hw hh hWw hfuel
    exact absurd hh (by omega)
  | succ fuel ih =>
    intro w h x0 y0 last hw hh hWw hfuel
    simp only [erodeLoop]
    rw [if_neg (rect_nonempty W x0 y0 w h (by omega) (by omega))]
    by_cases hstop : (boundaryPixels (rectFinset W x0 y0 w h) W).card =
        (rectFinset W x0 y0 w h).card
    · rw [if_pos hstop]
      exact ⟨w, h, x0, y0, rfl, hw, hh, hWw, rfl, rfl⟩
    · rw [if_neg hstop]
      have hsub : boundaryPixels (rectFinset W x0 y0 w h) W ⊆
          rectFinset W x0 y0 w h := Finset.filter_subset _ _
      by_cases hwW : w = W
      · have hx0 : x0 = 0 := by omega
        have hrw : rectFinset W x0 y0 w h = rectFinset W 0 y0 W h := by
          rw [hx0, hwW]
        rw [hrw, erode_rect_of_eq W y0 h]
        have hinner : rectFinset W 0 (y0 + 1) W (h - 2) ≠ ∅ := by
          intro h0
          apply hstop
          have hRsub : rectFinset W x0 y0 w h ⊆
              boundaryPixels (rectFinset W x0 y0 w h) W := by
            intro q hq
            by_contra hq2
            have hmem : q ∈ rectFinset W x0 y0 w h \
                boundaryPixels (rectFinset W x0 y0 w h) W :=
              Finset.mem_sdiff.mpr ⟨hq, hq2⟩
            rw [hrw, erode_rect_of_eq W y0 h, h0] at hmem
            exact absurd hmem (Finset.not_mem_empty _)
          rw [Finset.Subset.antisymm hsub hRsub]
        have hh3 : h - 2 ≠ 0 := by
          intro h0
          exact hinner (by rw [h0]; exact rect_empty_right _ _ _ _)
        obtain ⟨w2, h2, x2, y2, heq, p1, p2, p3, p4, p5⟩ :=
          ih W (h - 2) 0 (y0 + 1) (rectFinset W 0 y0 W h)
            (by omega) (by omega) (by omega) (by omega)
        exact ⟨w2, h2, x2, y2, heq, p1, p2, p3, by omega, by omega⟩
      · rw [erode_rect_of_ne W x0 y0 w h hWw hwW]
        have hinner : rectFinset W (x0 + 1) (y0 + 1) (w - 2) (h - 2) ≠ ∅ := by
          intro h0
          apply hstop
          have hRsub : rectFinset W x0 y0 w h ⊆
              boundaryPixels (rectFinset W x0 y0 w h) W := by
            intro q hq
            by_contra hq2
            have hmem : q ∈ rectFinset W x0 y0 w h \
                boundaryPixels (rectFinset W x0 y0 w h) W :=
              Finset.mem_sdiff.mpr ⟨hq, hq2⟩
            rw [erode_rect_of_ne W x0 y0 w h hWw hwW, h0] at hmem
            exact absurd hmem (Finset.not_mem_empty _)
          rw [Finset.Subset.antisymm hsub hRsub]
        have hw3 : w - 2 ≠ 0 := by
          intro h0
          exact hinner (by rw [h0]; exact rect_empty_left _ _ _ _)
        have hh3 : h - 2 ≠ 0 := by
          intro h0
          exact hinner (by rw [h0]; exact rect_empty_right _ _ _ _)
        obtain ⟨w2, h2, x2, y2, heq, p1, p2, p3, p4, p5⟩ :=
          ih (w - 2) (h - 2) (x0 + 1) (y0 + 1) (rectFinset W x0 y0 w h)
            (by omega) (by omega) (by omega) (by omega)
        exact ⟨w2, h2, x2, y2, heq, p1, p2, p3, by omega, by omega⟩

lemma sum_range_int (n : ℕ) :
    (∑ i ∈ Finset.range n, (i : ℤ)) * 2 = (n : ℤ) * ((n : ℤ) - 1) := by
  induction n with
  | zero => simp
  | succ n ih =>
    rw [Finset.sum_range_succ]
    push_cast
    linear_combination ih

lemma sum_range_int_odd (w : ℕ) (hw : w % 2 = 1) :
    (∑ i ∈ Finset.range w, (i : ℤ)) = (w : ℤ) * (((w - 1) / 2 : ℕ) : ℤ) := by
  have h2 := sum_range_int w
  have hm : (((w - 1) / 2 : ℕ) : ℤ) * 2 = (w : ℤ) - 1 := by omega
  have h3 : (∑ i ∈ Finset.range w, (i : ℤ)) * 2 =
      ((w : ℤ) * (((w - 1) / 2 : ℕ) : ℤ)) * 2 := by
    rw [h2]
    linear_combination (-(w : ℤ)) * hm
  exact mul_right_cancel₀ (by norm_num) h3

lemma rect_sum_emod (W x0 y0 w h : ℕ) (hWw : x0 + w ≤ W) (hw : w % 2 = 1) :
    ((rectFinset W x0 y0 w h).sum fun p => p % (W : ℤ)) =
      ((w * h : ℕ) : ℤ) * ((x0 + (w - 1) / 2 : ℕ) : ℤ) := by
  unfold rectFinset
  have hinj : ∀ p ∈ Finset.range w ×ˢ Finset.range h,
      ∀ q ∈ Finset.range w ×ˢ Finset.range h,
      (((y0 + p.2) * W + (x0 + p.1) : ℕ) : ℤ) =
        (((y0 + q.2) * W + (x0 + q.1) : ℕ) : ℤ) → p = q := by
    intro p hp q hq hpq
    simp only [Finset.mem_product, Finset.mem_range] at hp hq
    have h2 : ((y0 : ℤ) + p.2) * W + ((x0 : ℤ) + p.1) =
        ((y0 : ℤ) + q.2) * W + ((x0 : ℤ) + q.1) := by
      push_cast at hpq
      linarith
    obtain ⟨hy, hx⟩ := rect_decomp (by omega) (by omega) (by omega) (by omega) h2
    obtain ⟨p1, p2⟩ := p
    obtain ⟨q1, q2⟩ := q
    simp only [Prod.mk.injEq]
    constructor <;> omega
  rw [Finset.sum_image hinj]
  have hterm : ∀ q ∈ Finset.range w ×ˢ Finset.range h,
      ((((y0 + q.2) * W + (x0 + q.1) : ℕ) : ℤ)) % (W : ℤ) = (x0 : ℤ) + q.1 := by
    intro q hq
    simp only [Finset.mem_product, Finset.mem_range] at hq
    push_cast
    rw [add_comm (((y0 : ℤ) + q.2) * W) ((x0 : ℤ) + q.1), Int.add_mul_emod_self]
    exact Int.emod_eq_of_lt (by omega) (by omega)
  rw [Finset.sum_congr rfl hterm, Finset.sum_product_right]
  simp only [Finset.sum_add_distrib, Finset.sum_const, Finset.card_range,
    nsmul_eq_mul]
  rw [sum_range_int_odd w hw]
  push_cast
  ring

lemma rect_sum_ediv (W x0 y0 w h : ℕ) (hWw : x0 + w ≤ W) (hh : h % 2 = 1) :
    ((rectFinset W x0 y0 w h).sum fun p => p / (W : ℤ)) =
      ((w * h : ℕ) : ℤ) * ((y0 + (h - 1) / 2 : ℕ) : ℤ) := by
  unfold rectFinset
  have hinj : ∀ p ∈ Finset.range w ×ˢ Finset.range h,
      ∀ q ∈ Finset.range w ×ˢ Finset.range h,
      (((y0 + p.2) * W + (x0 + p.1) : ℕ) : ℤ) =
        (((y0 + q.2) * W + (x0 + q.1) : ℕ) : ℤ) → p = q := by
    intro p hp q hq hpq
    simp only [Finset.mem_product, Finset.mem_range] at hp hq
    have h2 : ((y0 : ℤ) + p.2) * W + ((x0 : ℤ) + p.1) =
        ((y0 : ℤ) + q.2) * W + ((x0 : ℤ) + q.1) := by
      push_cast at hpq
      linarith
    obtain ⟨hy, hx⟩ := rect_decomp (by omega) (by omega) (by omega) (by omega) h2
    obtain ⟨p1, p2⟩ := p
    obtain ⟨q1, q2⟩ := q
    simp only [Prod.mk.injEq]
    constructor <;> omega
  rw [Finset.sum_image hinj]
  have hterm : ∀ q ∈ Finset.range w ×ˢ Finset.range h,
      ((((y0 + q.2) * W + (x0 + q.1) : ℕ) : ℤ)) / (W : ℤ) = (y0 : ℤ) + q.2 := by
    intro q hq
    simp only [Finset.mem_product, Finset.mem_range] at hq
    have hW0 : (W : ℤ) ≠ 0 := by omega
    push_cast
    rw [add_comm (((y0 : ℤ) + q.2) * W) ((x0 : ℤ) + q.1),
        Int.add_mul_ediv_right _ _ hW0,
        Int.ediv_eq_zero_of_lt (by omega) (by omega)]
    ring
  rw [Finset.sum_congr rfl hterm, Finset.sum_product]
  simp only [Finset.sum_add_distrib, Finset.sum_const, Finset.card_range,
    nsmul_eq_mul]
  rw [sum_range_int_odd h hh]
  push_cast
  ring

lemma jsRound_intCast (z : ℤ) : jsRound ((z : ℚ)) = z := by
  unfold jsRound
  rw [add_comm, Int.floor_add_int]
  have h0 : ⌊(1 / 2 : ℚ)⌋ = 0 := by
    rw [Int.floor_eq_zero_iff]
    constructor <;> norm_num
  rw [h0]
  ring

lemma centroid_exact (n : ℕ) (c : ℤ) (hn : n ≠ 0) :
    jsRound ((((n : ℤ) * c : ℤ) : ℚ) / (n : ℚ)) = c := by
  have hq : (((n : ℤ) * c : ℤ) : ℚ) / (n : ℚ) = (c : ℚ) := by
    push_cast
    exact mul_div_cancel_left₀ (c : ℚ) (by exact_mod_cast hn)
  rw [hq, jsRound_intCast]

/-- C7: for every solid axis-aligned rectangular region of odd width `w`
and odd height `h` located anywhere within a raster of width `W`
(`x0 + w ≤ W`; any row `y0`), the LabelPlacer's boundary erosion
returns exactly the rectangle's geometric center
`(x0 + (w-1)/2, y0 + (h-1)/2)`.  Each erosion pass peels one ring —
both horizontal sides when `w < W`, only the top and bottom rows when
the rectangle spans the full raster width (the row-agnostic `p ± 1`
neighbor test of line 242 wraps around row ends) — so every
intermediate layer is again a rectangle with odd dimensions and the
same doubled center, and the mean over the final layer is exactly the
center, unchanged by `Math.round`. -/
theorem findBestLabelPosition_center (W x0 y0 w h : ℕ) (pl : List ℕ)
    (hw : w % 2 = 1) (hh : h % 2 = 1) (hWw : x0 + w ≤ W) (hpl : pl ≠ [])
    (hset : (pl.map Int.ofNat).toFinset = rectFinset W x0 y0 w h) :
    findBestLabelPosition pl W =
      (((x0 + (w - 1) / 2 : ℕ) : ℤ), ((y0 + (h - 1) / 2 : ℕ) : ℤ)) := by
  obtain ⟨p₀, tl, rfl⟩ := List.exists_cons_of_ne_nil hpl
  simp only [findBestLabelPosition]
  rw [hset]
  rw [rect_card W x0 y0 w h hWw]
  have hwh : h ≤ w * h := Nat.le_mul_of_pos_left h (by omega)
  obtain ⟨w2, h2, x2, y2, heq, hw2, hh2, hWw2, hcx, hcy⟩ :=
    erodeLoop_rect W (w * h + 1) w h x0 y0 ∅ hw hh hWw (by omega)
  rw [heq]
  rw [if_neg (rect_nonempty W x2 y2 w2 h2 (by omega) (by omega))]
  rw [rect_sum_emod W x2 y2 w2 h2 hWw2 hw2, rect_sum_ediv W x2 y2 w2 h2 hWw2 hh2,
      rect_card W x2 y2 w2 h2 hWw2]
  rw [centroid_exact (w2 * h2) _ (Nat.mul_ne_zero (by omega) (by omega)),
      centroid_exact (w2 * h2) _ (Nat.mul_ne_zero (by omega) (by omega))]
  simp only [Prod.mk.injEq]
  exact ⟨by omega, by omega⟩

/-- Witness for `findBestLabelPosition_center`: the 3x3 rectangle with
top-left corner (1, 1) in a raster of width 5; its label lands on the
center pixel (2, 2). -/
theorem findBestLabelPosition_center_witness :
    3 % 2 = 1 ∧ 1 + 3 ≤ 5 ∧ ([6, 7, 8, 11, 12, 13, 16, 17, 18] : List ℕ) ≠ [] ∧
      findBestLabelPosition [6, 7, 8, 11, 12, 13, 16, 17, 18] 5 = (2, 2) :=
  ⟨by decide, by decide, by decide,
    findBestLabelPosition_center 5 1 1 3 3 [6, 7, 8, 11, 12, 13, 16, 17, 18]
      (by decide) (by decide) (by decide) (by decide) (by decide)⟩

end PBN
